import Mathlib

/-!
# Verification of the VM-to-assembly translator (`vm_tr.py`)

This file gives a shallow embedding of the translator's core: the
pop/push addressing helper, the comparison-label counters, the
`function`/`call`/`return` expansions, the dispatching `translate`
method, and the pattern-table loader `create_mappings`.  The assembly
templates themselves live in an external `patterns` directory that is
not part of the source tree; where their meaning is needed (segment
addressing) the definitions are modelled from the specification and
say so in their doc comment.
-/

deriving instance DecidableEq for Except

/-! ## Python primitives used by the translator -/

/-- The numeric value of a decimal digit character, `none` otherwise. -/
def digitVal (c : Char) : Option Nat :=
  if '0' ≤ c ∧ c ≤ '9' then some (c.toNat - '0'.toNat) else none

/-- Accumulating decimal evaluation of a digit string; fails on the
first non-digit. -/
def digitsVal (acc : Nat) : List Char → Option Nat
  | [] => some acc
  | c :: cs =>
    match digitVal c with
    | some d => digitsVal (10 * acc + d) cs
    | none => none

/-- Decimal value of a non-empty all-digit character list. -/
def digitsToNat : List Char → Option Nat
  | [] => none
  | l => digitsVal 0 l

/-- Model of Python's `int(s)` as used on the translator's offset
tokens: an optional leading minus sign followed by decimal digits.
(Python's `int` also accepts forms such as a leading `+`, surrounding
whitespace or underscore separators; the translator's tokens never use
them in meaningful positions.) -/
def pyIntList : List Char → Option Int
  | '-' :: rest => (digitsToNat rest).map fun n => -(n : Int)
  | l => (digitsToNat l).map fun n => (n : Int)

/-- `pyInt s` models `int(s)` on a whole string token. -/
def pyInt (s : String) : Option Int := pyIntList s.data

/-- The decimal digit character for `n < 10`. -/
def digitChar10 (n : Nat) : Char :=
  match n with
  | 0 => '0' | 1 => '1' | 2 => '2' | 3 => '3' | 4 => '4'
  | 5 => '5' | 6 => '6' | 7 => '7' | 8 => '8' | _ => '9'

/-- Fuel-driven decimal rendering of a natural number, most significant
digit first.  Any `fuel > n` produces the full rendering. -/
def decChars (fuel n : Nat) : List Char :=
  match fuel with
  | 0 => []
  | f + 1 =>
    if n < 10 then [digitChar10 n]
    else decChars f (n / 10) ++ [digitChar10 (n % 10)]

/-- Model of Python's `str(n)` for a natural number (the translator only
ever renders non-negative integers). -/
def pyNatStr (n : Nat) : String := ⟨decChars (n + 1) n⟩

/-- Model of Python's rendering of an optional string under
`str.format`: `None` prints as `"None"`. -/
def pyStr (o : Option String) : String := o.getD "None"

/-- `' '.join(line)`, used by `_make_comm`. -/
def joinSpace (line : List String) : String := String.intercalate " " line

/-! ## Assembly templates

A template (`pattern` file content) is a sequence of literal pieces and
the three placeholders `var_1`, `var_2`, `var_3` that the handlers fill
via `str.format`.  The pattern files are external data (absent from the
source tree), so templates are kept abstract as piece lists. -/

inductive Piece where
  | lit (s : String)
  | var1
  | var2
  | var3
deriving DecidableEq

abbrev Pattern := List Piece

/-- Errors of the Python run, named after the exceptions that raise
them.  `outOfFuel` is an artifact of the embedding's fuel-indexed
recursion, never returned for sufficient fuel. -/
inductive TrErr where
  | keyError (k : String)
  | indexError
  | valueError
  | attributeError
  | outOfFuel
deriving DecidableEq

/-- `raw_code.format(var_1 = a, var_2 = b, var_3 = c)`: a `none`
argument means the keyword was not passed at all, so a placeholder
referencing it raises `KeyError`. -/
def formatPat : Pattern → Option String → Option String → Option String → Except TrErr String
  | [], _, _, _ => .ok ""
  | .lit s :: rest, a, b, c => (formatPat rest a b c).map fun t => s ++ t
  | .var1 :: rest, a, b, c =>
    match a with
    | some v => (formatPat rest a b c).map fun t => v ++ t
    | none => .error (.keyError "var_1")
  | .var2 :: rest, a, b, c =>
    match b with
    | some v => (formatPat rest a b c).map fun t => v ++ t
    | none => .error (.keyError "var_2")
  | .var3 :: rest, a, b, c =>
    match c with
    | some v => (formatPat rest a b c).map fun t => v ++ t
    | none => .error (.keyError "var_3")

/-! ## The pop/push addressing helper (`_pop_push_helper`) -/

/-- `loc_dict`: base-pointer register index for the four indirect
segments. -/
def locDict (seg : String) : Option Nat :=
  match seg with
  | "local" => some 1
  | "argument" => some 2
  | "this" => some 3
  | "that" => some 4
  | _ => none

/-- The substitution triple `(var_1, var_2, var_3)` computed by
`_pop_push_helper` for a segment and offset token; `none` is the
`KeyError` raised by `op_dict[mem_segm]` for an unknown segment.
A negative offset token is detected with `int(i)` (non-parseable tokens
count as non-negative), split into sign and magnitude, and the sign is
only kept for the `pointer` and indirect segments. -/
def popPushExpr (className seg i : String) :
    Option (String × Option String × Option String) :=
  let isNeg : Bool := match pyInt i with | some n => decide (n < 0) | none => false
  let i' : String := if isNeg then i.drop 1 else i
  let sign : String := if isNeg then "-" else "+"
  match seg with
  | "static" => some (className, some i', none)
  | "temp" => some (i', none, none)
  | "pointer" => some (i', some sign, none)
  | "local" | "argument" | "this" | "that" =>
    some (pyNatStr ((locDict seg).getD 0), some i', some sign)
  | "constant" => some (i', none, none)
  | _ => none

/-! ## Expansion command lists synthesized by the handlers -/

/-- The return label `f-string` `RETURN_<n>` built by `_call`. -/
def retLabel (n : Nat) : String := "RETURN_" ++ pyNatStr n

/-- Sub-instructions synthesized by `_function`: the function's entry
label followed by one `push constant 0` per declared local. -/
def functionCmds (funcName : String) (nLocals : Nat) : List (List String) :=
  ["label", funcName] :: List.replicate nLocals ["push", "constant", "0"]

/-- Sub-instructions synthesized by `_call` for `call funcName numArgs`
at instruction index `idx` (the handler uses `return_idx = idx + 1`):
push the return-label literal, save the caller's `local`, `argument`,
`this`, `that` base pointers, set `argument` to `SP - 5 - numArgs`, set
`local` to `SP`, jump to the callee and declare the return label. -/
def callCmds (funcName numArgs : String) (idx : Nat) : List (List String) :=
  [["push", "constant", retLabel (idx + 1)]] ++
  [["push", "pointer", "-2"], ["push", "pointer", "-1"],
   ["push", "pointer", "0"], ["push", "pointer", "1"]] ++
  [["push", "pointer", "-3"], ["push", "constant", "5"], ["sub"],
   ["push", "constant", numArgs], ["sub"], ["pop", "pointer", "-1"]] ++
  [["push", "pointer", "-3"], ["pop", "pointer", "-2"]] ++
  [["goto", funcName]] ++
  [["label", retLabel (idx + 1)]]

/-- The fixed scratch address for the saved stack pointer in `_return`. -/
def sp_addr : Nat := 14

/-- The fixed scratch address for the saved return address in `_return`. -/
def ret_addr : Nat := 15

/-- Sub-instructions synthesized by `_return` (with
`sp_addr = 14`, `ret_addr = 15`, so the two `pointer` scratch offsets
are `ret_addr - 3 = 12` and `sp_addr - 3 = 11`): save the return
address, write the return value into `argument[0]`, save `argument + 1`
as the post-call stack pointer, restore `that`, `this`, `argument`,
`local` from offsets `-1` to `-4` below the `local` base, and restore
the stack pointer. -/
def returnCmds : List (List String) :=
  [["push", "local", "-5"], ["pop", "pointer", "12"]] ++
  [["pop", "argument", "0"]] ++
  [["push", "pointer", "-1"], ["push", "constant", "1"], ["add"],
   ["pop", "pointer", "11"]] ++
  [["push", "local", "-1"], ["pop", "pointer", "1"]] ++
  [["push", "local", "-2"], ["pop", "pointer", "0"]] ++
  [["push", "local", "-3"], ["pop", "pointer", "-1"]] ++
  [["push", "local", "-4"], ["pop", "pointer", "-2"]] ++
  [["push", "pointer", "11"], ["pop", "pointer", "-3"]]

/-! ## The comparison counters (`_lt_eq_gt_counter` and `_lt_eq_gt`) -/

/-- The class-level counter dictionary for the three comparison
operators. -/
structure LtEqGtCounter where
  lt : Nat
  eq : Nat
  gt : Nat
deriving DecidableEq

/-- The initial counter dictionary. -/
def cmp0 : LtEqGtCounter := ⟨0, 0, 0⟩

/-- The conditional-jump mnemonic chosen by `_lt_eq_gt`. -/
def jumpSymbol (cmd : String) : Option String :=
  match cmd with
  | "lt" => some "JGT"
  | "eq" => some "JEQ"
  | "gt" => some "JLT"
  | _ => none

/-- One step of `_lt_eq_gt`'s counter bookkeeping: increment the
operator's own counter, then emit `counter - 1` as the label index.
`none` is the `KeyError` for a command outside the dictionary. -/
def ltEqGtStep (c : LtEqGtCounter) (cmd : String) : Option (LtEqGtCounter × Nat) :=
  match cmd with
  | "lt" => let c' := { c with lt := c.lt + 1 }; some (c', c'.lt - 1)
  | "eq" => let c' := { c with eq := c.eq + 1 }; some (c', c'.eq - 1)
  | "gt" => let c' := { c with gt := c.gt + 1 }; some (c', c'.gt - 1)
  | _ => none

/-- The label indices produced by translating a sequence of comparison
commands starting from counters `c`. -/
def cmpIndices (c : LtEqGtCounter) : List String → Option (List Nat)
  | [] => some []
  | cmd :: rest =>
    match ltEqGtStep c cmd with
    | some (c', i) => (cmpIndices c' rest).map fun l => i :: l
    | none => none

/-- Reading a counter of the dictionary. -/
def cmpGet (c : LtEqGtCounter) (cmd : String) : Nat :=
  if cmd = "lt" then c.lt else if cmd = "eq" then c.eq
  else if cmd = "gt" then c.gt else 0

/-! ## Return-label indices assigned by `main`

`main` enumerates the parsed program and hands each line its index;
`_call` turns index `idx` into the label `RETURN_(idx + 1)`. -/

/-- The return indices assigned to the `call` sites of a program whose
first line has index `n`. -/
def retIndicesFrom (n : Nat) : List (List String) → List Nat
  | [] => []
  | l :: rest =>
    (if l.head? = some "call" then [n + 1] else []) ++ retIndicesFrom (n + 1) rest

/-- The return indices assigned to the `call` sites of a program, in
program order (mirrors `main`'s `enumerate` plus `_call`'s
`return_idx = idx + 1`). -/
def retIndices (prog : List (List String)) : List Nat := retIndicesFrom 0 prog

/-! ## Machine-state semantics of the primitive instructions

Modelled from the spec: the assembly skeleton that each primitive
instruction expands to lives in the external `patterns` directory,
which is absent from the source tree; section 4.3 of the specification
fixes the addressing rules those skeletons implement (an immediate for
`constant`, fixed bases for `temp` and `pointer`, indirection through
the base-pointer register for `local`/`argument`/`this`/`that`, with
the register file at addresses 0..4: SP, LCL, ARG, THIS, THAT).  The
`pointer` base is the `this` register (address 3), as witnessed by the
call/return expansions reaching SP/LCL/ARG via offsets `-3`/`-2`/`-1`
and the scratch cells 14/15 via offsets 11/12. -/

/-- A machine word: either an integer or a symbolic assembler token
(such as a return-label literal pushed by `call`). -/
inductive Val where
  | int (n : Int)
  | sym (s : String)
deriving DecidableEq

/-- Machine memory. -/
def Mem : Type := Int → Val

/-- Pointwise memory update. -/
def upd (m : Mem) (a : Int) (v : Val) : Mem := fun x => if x = a then v else m x

/-- Read a cell that must hold an integer. -/
def getInt (m : Mem) (a : Int) : Option Int :=
  match m a with
  | .int n => some n
  | .sym _ => none

/-- Modelled from the spec: the address a `push`/`pop` on `seg` with
offset token `i` resolves to (section 4.3; the templates implementing
it are external pattern files).  `constant` and `static` do not resolve
to a numbered address here. -/
def segAddr (m : Mem) (seg i : String) : Option Int :=
  match seg with
  | "pointer" => (pyInt i).map fun v => 3 + v
  | "temp" => (pyInt i).map fun v => 5 + v
  | "local" => (pyInt i).bind fun v => (getInt m 1).map fun b => b + v
  | "argument" => (pyInt i).bind fun v => (getInt m 2).map fun b => b + v
  | "this" => (pyInt i).bind fun v => (getInt m 3).map fun b => b + v
  | "that" => (pyInt i).bind fun v => (getInt m 4).map fun b => b + v
  | _ => none

/-- The value a `push constant` places on the stack: a parsed integer,
or the token itself as a symbolic assembler literal. -/
def constVal (i : String) : Val :=
  match pyInt i with
  | some n => .int n
  | none => .sym i

/-- Push a value: store at `SP`, increment `SP`. -/
def pushVal (m : Mem) (v : Val) : Option Mem :=
  (getInt m 0).map fun sp => upd (upd m sp v) 0 (.int (sp + 1))

/-- Pop into address `a`: decrement `SP`, move the popped cell to `a`. -/
def popTo (m : Mem) (a : Int) : Option Mem :=
  (getInt m 0).map fun sp => upd (upd m 0 (.int (sp - 1))) a (m (sp - 1))

/-- Binary arithmetic: pop two integers, push the result. -/
def binop (m : Mem) (f : Int → Int → Int) : Option Mem :=
  (getInt m 0).bind fun sp =>
    (getInt m (sp - 1)).bind fun y =>
      (getInt m (sp - 2)).map fun x =>
        upd (upd m (sp - 2) (.int (f x y))) 0 (.int (sp - 1))

/-- Execute one primitive instruction on the memory.  `goto` and
`label` do not touch the memory (they only transfer or mark control). -/
def execLine (m : Mem) : List String → Option Mem
  | ["push", seg, i] =>
    if seg = "constant" then pushVal m (constVal i)
    else (segAddr m seg i).bind fun a => pushVal m (m a)
  | ["pop", seg, i] => (segAddr m seg i).bind fun a => popTo m a
  | ["add"] => binop m (· + ·)
  | ["sub"] => binop m (· - ·)
  | ["goto", _] => some m
  | ["label", _] => some m
  | _ => none

/-- Execute a list of primitive instructions. -/
def execList (m : Mem) : List (List String) → Option Mem
  | [] => some m
  | c :: cs => (execLine m c).bind fun m' => execList m' cs

/-! ## The translator state and the dispatching `translate`

The class-level mutable state of `Translator`: the loaded pattern
table, the comparison counters and the accumulated assembly output.
Dispatch itself is data-driven in the source (`_func_mappings`, filled
by `create_mappings` from the file names of the external `patterns`
directory); the command-to-handler map below is modelled from the spec
(section 4.2) and from the handler-selection rules of
`create_mappings`. -/

structure TransState where
  patterns : List (String × Pattern)
  cnt : LtEqGtCounter
  asm : String
deriving DecidableEq

/-- `Translator._code_patterns[k]`: pattern lookup, `KeyError` when the
name is missing. -/
def lookupPat (st : TransState) (k : String) : Except TrErr Pattern :=
  match st.patterns.find? fun p => p.1 == k with
  | some p => .ok p.2
  | none => .error (.keyError k)

/-- `self._line[n]` with `IndexError` on a too-short line. -/
def idxGet (line : List String) (n : Nat) : Except TrErr String :=
  match line.get? n with
  | some v => .ok v
  | none => .error .indexError

/-- `popPushExpr` in the `Except` monad (`KeyError` on an unknown
segment). -/
def popPushExprE (className seg i : String) :
    Except TrErr (String × Option String × Option String) :=
  match popPushExpr className seg i with
  | some e => .ok e
  | none => .error (.keyError seg)

/-- The comment line written by `_make_comm`. -/
def commentOf (line : List String) : String := "// " ++ joinSpace line ++ "\n"

/-- The operator character substituted by `_add_sub_or_and`. -/
def opSymbol (cmd : String) : Option String :=
  match cmd with
  | "add" => some "+"
  | "sub" => some "-"
  | "or" => some "|"
  | "and" => some "&"
  | _ => none

/-- The operator character substituted by `_neg_not`. -/
def unSymbol (cmd : String) : Option String :=
  match cmd with
  | "neg" => some "-"
  | "not" => some "!"
  | _ => none

/-- The pattern name chosen for a `pop`/`push` line: the four indirect
segments share the `loc` pattern, every other segment has its own. -/
def trPatternName (cmd seg : String) : String :=
  if seg = "local" ∨ seg = "argument" ∨ seg = "this" ∨ seg = "that" then
    "_" ++ cmd ++ " loc"
  else
    "_" ++ cmd ++ " " ++ seg

/-- The dispatch of one `Translator.translate` layer after the comment
step: `st1` is the state with the comment already appended, `cmd` the
line's opcode.  Mirrors the source's order of effects: dispatch, then
pattern-name resolution, then the pop/push helper, then pattern lookup,
then the handler. -/
def translateBranch
    (rec : TransState → List String → String → Nat → Except TrErr TransState)
    (st1 : TransState) (cmd : String) (line : List String) (className : String)
    (idx : Nat) : Except TrErr TransState :=
  if cmd = "push" ∨ cmd = "pop" then do
    let seg ← idxGet line 1
    let pname := trPatternName cmd seg
    let i ← idxGet line 2
    let e ← popPushExprE className seg i
    let pat ← lookupPat st1 pname
    let code ← formatPat pat (some e.1) (some (pyStr e.2.1)) (some (pyStr e.2.2))
    pure { st1 with asm := st1.asm ++ code ++ "\n" }
  else if cmd = "label" ∨ cmd = "goto" ∨ cmd = "if-goto" then do
    let pat ← lookupPat st1 ("_" ++ cmd)
    let lbl ← idxGet line 1
    let code ← formatPat pat (some lbl) none none
    pure { st1 with asm := st1.asm ++ code ++ "\n" }
  else if cmd = "add" ∨ cmd = "sub" ∨ cmd = "or" ∨ cmd = "and" then do
    let pat ← lookupPat st1 "_add_sub_or_and"
    let code ← formatPat pat (opSymbol cmd) none none
    pure { st1 with asm := st1.asm ++ code ++ "\n" }
  else if cmd = "neg" ∨ cmd = "not" then do
    let pat ← lookupPat st1 "_neg_not"
    let code ← formatPat pat (unSymbol cmd) none none
    pure { st1 with asm := st1.asm ++ code ++ "\n" }
  else if cmd = "lt" ∨ cmd = "eq" ∨ cmd = "gt" then do
    let pat ← lookupPat st1 "_lt_eq_gt"
    match ltEqGtStep st1.cnt cmd with
    | some (c', v) => do
      let code ← formatPat pat (some cmd.toUpper) (jumpSymbol cmd) (some (pyNatStr v))
      pure { st1 with cnt := c', asm := st1.asm ++ code ++ "\n" }
    | none => .error (.keyError cmd)
  else if cmd = "function" then do
    let _ ← lookupPat st1 "_function"
    let itok ← idxGet line 2
    let i ← match pyInt itok with
            | some v => Except.ok v
            | none => Except.error TrErr.valueError
    let fname ← idxGet line 1
    (functionCmds fname i.toNat).foldlM (fun s l => rec s l "" 0) st1
  else if cmd = "call" then do
    let _ ← lookupPat st1 "_call"
    let fname ← idxGet line 1
    let na ← idxGet line 2
    (callCmds fname na idx).foldlM (fun s l => rec s l "" 0) st1
  else if cmd = "return" then do
    let pat ← lookupPat st1 "_return"
    let st2 ← returnCmds.foldlM (fun s l => rec s l "" 0) st1
    let code ← formatPat pat (some (pyNatStr ret_addr)) none none
    pure { st2 with asm := st2.asm ++ code ++ "\n" }
  else .error (.keyError cmd)

/-- One layer of `Translator.translate`, parameterized by the function
`rec` used to translate the sub-instructions synthesized by the
`function`/`call`/`return` handlers (which construct a fresh
`Translator` with default empty class name and index `0` for each):
read the opcode, append the comment (except for `label`), dispatch. -/
def translateCore
    (rec : TransState → List String → String → Nat → Except TrErr TransState)
    (st : TransState) (line : List String) (className : String) (idx : Nat) :
    Except TrErr TransState := do
  let cmd ← idxGet line 0
  translateBranch rec
    (if cmd = "label" then st else { st with asm := st.asm ++ commentOf line })
    cmd line className idx

/-- `Translator.translate`, fuel-indexed to make the mutual recursion
with the expansion handlers structural.  Fuel `2` suffices for every
instruction (the expansions only synthesize non-expanding opcodes). -/
def translateFuel : Nat → TransState → List String → String → Nat → Except TrErr TransState
  | 0, _, _, _, _ => .error .outOfFuel
  | fuel + 1, st, line, className, idx =>
    translateCore (translateFuel fuel) st line className idx

/-! ## The pattern-table loader (`create_mappings`) -/

/-- A line of a pattern file survives the comment/blank filter when its
first character is none of `/`, newline, or space (the lines of a
Python file iteration are never empty). -/
def keepLine (l : String) : Bool :=
  match l.data with
  | [] => true
  | c :: _ => ¬(c = '/' ∨ c = '\n' ∨ c = ' ')

/-- `line.replace(" ", "")`. -/
def stripSpaces (l : String) : String := ⟨l.data.filter fun c => c ≠ ' '⟩

/-- The cleaned template text of one pattern file. -/
def patternText (lines : List String) : String :=
  ((lines.filter keepLine).map stripSpaces).foldl (fun a b => a ++ b) ""

/-- `os.path.splitext`-style stem: the file name up to the final dot. -/
def fileStem (fname : String) : String :=
  match fname.data.reverse.dropWhile (fun c => c ≠ '.') with
  | [] => fname
  | _ :: rest => ⟨rest.reverse⟩

/-- Substring occurrence over character lists. -/
def listHasSub (sub : List Char) : List Char → Bool
  | [] => sub.isEmpty
  | c :: rest => sub.isPrefixOf (c :: rest) || listHasSub sub rest

/-- Python's `sub in s` substring test. -/
def pyIn (sub s : String) : Bool := listHasSub sub.data s.data

/-- Python's `s.endswith(suffix)`. -/
def pyEndsWith (s suffix : String) : Bool := suffix.data.isSuffixOf s.data

/-- The first whitespace-separated word of a pattern name
(`pattern_name.split()[0]`; pattern names never start with a blank). -/
def firstWord (s : String) : String := ⟨s.data.takeWhile (fun c => c ≠ ' ')⟩

/-- Dictionary assignment: overwrite an existing key in place, append a
new one. -/
def dinsert (l : List (String × String)) (k v : String) : List (String × String) :=
  if (l.find? fun p => p.1 == k).isSome then
    l.map fun p => if p.1 == k then (k, v) else p
  else l ++ [(k, v)]

/-- The handler names `create_mappings` may resolve with `getattr`;
anything else raises `AttributeError`. -/
def handlerNames : List String :=
  ["_pop_push", "_label_goto_if_goto", "_add_sub_or_and", "_neg_not",
   "_lt_eq_gt", "_function", "_call", "_return"]

/-- The commands a pattern file links to its handler, together with the
handler's name: the selection rules of `create_mappings`. -/
def mappingOf (patternName : String) : Except TrErr (String × List String) :=
  if pyIn "pop" patternName ∨ pyIn "push" patternName then
    .ok ("_pop_push", [(firstWord patternName).drop 1])
  else if pyIn "label" patternName ∨ pyIn "goto" patternName ∨ pyIn "if-goto" patternName then
    .ok ("_label_goto_if_goto", [patternName.drop 1])
  else if patternName ∈ handlerNames then
    .ok (patternName, (patternName.splitOn "_").filter fun c => ¬c.isEmpty)
  else .error .attributeError

/-- `Translator.create_mappings` over the directory listing, given as
`(file name, file lines)` pairs: build the pattern table and the
command-to-handler table.  No validation is performed; entries for an
already-seen key are silently overwritten. -/
def createMappings (files : List (String × List String)) :
    Except TrErr (List (String × String) × List (String × String)) :=
  files.foldlM
    (fun tabs file =>
      if pyEndsWith file.1 ".txt" then do
        let patternName := fileStem file.1
        let pats := dinsert tabs.1 patternName (patternText file.2)
        let (funcName, cmds) ← mappingOf patternName
        let maps := cmds.foldl (fun m c => dinsert m c funcName) tabs.2
        pure (pats, maps)
      else pure tabs)
    ([], [])

/-! ## A concrete pattern table

A small concrete template table used to instantiate the theorems that
quantify over the loaded patterns (the real template texts are external
data; the claims proved below do not depend on their contents). -/

/-- A concrete template table covering every pattern name the
dispatcher can request. -/
def cPatterns : List (String × Pattern) :=
  [("_push constant", [.lit "pushC<", .var1, .lit ">"]),
   ("_pop constant", [.lit "popC<", .var1, .lit ">"]),
   ("_push loc", [.lit "pushL<", .var1, .lit ",", .var2, .lit ",", .var3, .lit ">"]),
   ("_pop loc", [.lit "popL<", .var1, .lit ",", .var2, .lit ",", .var3, .lit ">"]),
   ("_push pointer", [.lit "pushP<", .var1, .lit ",", .var2, .lit ">"]),
   ("_pop pointer", [.lit "popP<", .var1, .lit ",", .var2, .lit ">"]),
   ("_push temp", [.lit "pushT<", .var1, .lit ">"]),
   ("_pop temp", [.lit "popT<", .var1, .lit ">"]),
   ("_push static", [.lit "pushS<", .var1, .lit ".", .var2, .lit ">"]),
   ("_pop static", [.lit "popS<", .var1, .lit ".", .var2, .lit ">"]),
   ("_add_sub_or_and", [.lit "bin<", .var1, .lit ">"]),
   ("_neg_not", [.lit "un<", .var1, .lit ">"]),
   ("_lt_eq_gt", [.lit "cmp<", .var1, .lit ",", .var2, .lit ",", .var3, .lit ">"]),
   ("_label", [.lit "lbl<", .var1, .lit ">"]),
   ("_goto", [.lit "goto<", .var1, .lit ">"]),
   ("_if-goto", [.lit "ifgoto<", .var1, .lit ">"]),
   ("_function", [.lit "fn"]),
   ("_call", [.lit "cl"]),
   ("_return", [.lit "ret<", .var1, .lit ">"])]

/-- A concrete initial translator state over `cPatterns`. -/
def cState : TransState := ⟨cPatterns, cmp0, ""⟩


/-! ## Execution lemmas -/

theorem execList_append (m : Mem) (xs ys : List (List String)) :
    execList m (xs ++ ys) = (execList m xs).bind fun m' => execList m' ys := by
  induction xs generalizing m with
  | nil => simp [execList]
  | cons c cs ih =>
    simp only [List.cons_append, execList]
    cases execLine m c with
    | none => rfl
    | some m1 => simp [ih]

theorem pyInt_m5 : pyInt "-5" = some (-5) := by decide

theorem pyInt_m4 : pyInt "-4" = some (-4) := by decide

theorem pyInt_m3 : pyInt "-3" = some (-3) := by decide

theorem pyInt_m2 : pyInt "-2" = some (-2) := by decide

theorem pyInt_m1 : pyInt "-1" = some (-1) := by decide

theorem pyInt_0 : pyInt "0" = some 0 := by decide

theorem pyInt_1 : pyInt "1" = some 1 := by decide

theorem pyInt_5 : pyInt "5" = some 5 := by decide

theorem pyInt_11 : pyInt "11" = some 11 := by decide

theorem pyInt_12 : pyInt "12" = some 12 := by decide

theorem constVal_1 : constVal "1" = .int 1 := by decide

theorem constVal_5 : constVal "5" = .int 5 := by decide

/-- A token starting with the letter `R` is not an integer literal. -/
theorem pyIntList_R (l : List Char) : pyIntList ('R' :: l) = none := rfl

/-- The return-label token synthesized by `_call` never parses as an
integer. -/
theorem pyInt_retLabel (k : Nat) : pyInt (retLabel k) = none := by
  show pyIntList ("RETURN_" ++ pyNatStr k).data = none
  rw [String.data_append]
  exact pyIntList_R _

/-- The return-label token is pushed as a symbolic literal. -/
theorem constVal_retLabel (k : Nat) : constVal (retLabel k) = .sym (retLabel k) := by
  unfold constVal
  rw [pyInt_retLabel]

/-- A parseable constant token is pushed as its integer value. -/
theorem constVal_parse (i : String) (n : Int) (h : pyInt i = some n) :
    constVal i = .int n := by
  unfold constVal
  rw [h]

set_option maxHeartbeats 2000000 in
/-- Execution of the first half of the `return` expansion (save the
return address from `local - 5` into cell 15, store the return value at
`argument[0]`, save `argument + 1` into cell 14): register and frame
cell values after the run. -/
theorem returnFirstHalf (m : Mem) (sp lcl arg : Int)
    (h0 : m 0 = .int sp) (h1 : m 1 = .int lcl) (h2 : m 2 = .int arg)
    (ha : 16 ≤ arg) (hl : arg + 5 ≤ lcl) (hs : lcl + 1 ≤ sp) :
    (execList m [["push", "local", "-5"], ["pop", "pointer", "12"],
      ["pop", "argument", "0"],
      ["push", "pointer", "-1"], ["push", "constant", "1"], ["add"],
      ["pop", "pointer", "11"]]).map
      (fun m' => (m' 0, m' 1, m' 2, m' 14, m' 15, m' arg,
                  m' (lcl - 1), m' (lcl - 2), m' (lcl - 3), m' (lcl - 4))) =
    some (.int (sp - 1), .int lcl, .int arg, .int (arg + 1), m (lcl - 5), m (sp - 1),
          m (lcl - 1), m (lcl - 2), m (lcl - 3), m (lcl - 4)) := by
  simp (disch := omega) only [execList, execLine, segAddr, pushVal, popTo, binop,
    getInt, constVal_1, upd,
    pyInt_m5, pyInt_m4, pyInt_m3, pyInt_m2, pyInt_m1, pyInt_0, pyInt_1, pyInt_11, pyInt_12,
    h0, h1, h2, Option.bind, Option.map, List.cons_append, List.nil_append,
    if_pos, if_neg, Option.some.injEq, Prod.mk.injEq, Val.int.injEq,
    reduceIte, String.reduceEq, Int.reduceAdd, Int.reduceSub, Int.reduceNeg, Int.add_zero]
  refine ⟨by omega, trivial, trivial, trivial, ?_, ?_, trivial⟩ <;> exact congrArg m (by omega)

set_option maxHeartbeats 2000000 in
/-- Execution of the second half of the `return` expansion: the four
restores, in order `that`, `this`, `argument`, `local`, each reading
offset `-1` .. `-4` below the (still unmodified) `local` base, and the
final stack-pointer restore from cell 14. -/
theorem returnSecondHalf (m : Mem) (sp lcl arg v14 : Int) (v15 va : Val)
    (h0 : m 0 = .int sp) (h1 : m 1 = .int lcl) (h14 : m 14 = .int v14)
    (h15 : m 15 = v15) (harg : m arg = va)
    (ha : 16 ≤ arg) (hl : arg + 5 ≤ lcl) (hs : lcl ≤ sp) :
    (execList m [["push", "local", "-1"], ["pop", "pointer", "1"],
      ["push", "local", "-2"], ["pop", "pointer", "0"],
      ["push", "local", "-3"], ["pop", "pointer", "-1"],
      ["push", "local", "-4"], ["pop", "pointer", "-2"],
      ["push", "pointer", "11"], ["pop", "pointer", "-3"]]).map
      (fun m' => (m' 0, m' 1, m' 2, m' 3, m' 4, m' 15, m' arg)) =
    some (.int v14, m (lcl - 4), m (lcl - 3), m (lcl - 2), m (lcl - 1), v15, va) := by
  simp (disch := omega) only [execList, execLine, segAddr, pushVal, popTo, binop,
    getInt, upd,
    pyInt_m5, pyInt_m4, pyInt_m3, pyInt_m2, pyInt_m1, pyInt_0, pyInt_1, pyInt_11, pyInt_12,
    h0, h1, h14, h15, harg, Option.bind, Option.map, List.cons_append, List.nil_append,
    if_pos, if_neg, Option.some.injEq, Prod.mk.injEq, Val.int.injEq,
    reduceIte, String.reduceEq, Int.reduceAdd, Int.reduceSub, Int.reduceNeg, Int.add_zero]
  refine ⟨trivial, ?_, ?_, ?_, ?_, trivial⟩ <;> exact congrArg m (by omega)

/-- Full semantics of the `return` expansion on a well-formed frame:
eventually `SP = argument + 1`, the four base-pointer registers hold
the words found at `local - 4` .. `local - 1`, cell 15 holds the word
from `local - 5` (the return address) and `argument[0]` holds the
popped return value. -/
theorem returnSem (m : Mem) (sp lcl arg : Int)
    (h0 : m 0 = .int sp) (h1 : m 1 = .int lcl) (h2 : m 2 = .int arg)
    (ha : 16 ≤ arg) (hl : arg + 5 ≤ lcl) (hs : lcl + 1 ≤ sp) :
    (execList m returnCmds).map
      (fun m' => (m' 0, m' 1, m' 2, m' 3, m' 4, m' 15, m' arg)) =
    some (.int (arg + 1), m (lcl - 4), m (lcl - 3), m (lcl - 2), m (lcl - 1),
          m (lcl - 5), m (sp - 1)) := by
  have hsplit : returnCmds =
      [["push", "local", "-5"], ["pop", "pointer", "12"],
       ["pop", "argument", "0"],
       ["push", "pointer", "-1"], ["push", "constant", "1"], ["add"],
       ["pop", "pointer", "11"]] ++
      [["push", "local", "-1"], ["pop", "pointer", "1"],
       ["push", "local", "-2"], ["pop", "pointer", "0"],
       ["push", "local", "-3"], ["pop", "pointer", "-1"],
       ["push", "local", "-4"], ["pop", "pointer", "-2"],
       ["push", "pointer", "11"], ["pop", "pointer", "-3"]] := rfl
  rw [hsplit, execList_append]
  have hfst := returnFirstHalf m sp lcl arg h0 h1 h2 ha hl hs
  rw [Option.map_eq_some'] at hfst
  obtain ⟨m1, hexec, hcells⟩ := hfst
  rw [Prod.mk.injEq] at hcells
  obtain ⟨c0, hcells⟩ := hcells
  rw [Prod.mk.injEq] at hcells
  obtain ⟨c1, hcells⟩ := hcells
  rw [Prod.mk.injEq] at hcells
  obtain ⟨c2, hcells⟩ := hcells
  rw [Prod.mk.injEq] at hcells
  obtain ⟨c14, hcells⟩ := hcells
  rw [Prod.mk.injEq] at hcells
  obtain ⟨c15, hcells⟩ := hcells
  rw [Prod.mk.injEq] at hcells
  obtain ⟨carg, hcells⟩ := hcells
  rw [Prod.mk.injEq] at hcells
  obtain ⟨cl1, hcells⟩ := hcells
  rw [Prod.mk.injEq] at hcells
  obtain ⟨cl2, hcells⟩ := hcells
  rw [Prod.mk.injEq] at hcells
  obtain ⟨cl3, cl4⟩ := hcells
  rw [hexec]
  have hsnd := returnSecondHalf m1 (sp - 1) lcl arg (arg + 1) (m (lcl - 5)) (m (sp - 1))
    c0 c1 c14 c15 carg ha hl (by omega)
  rw [cl1, cl2, cl3, cl4] at hsnd
  rw [Option.some_bind]
  exact hsnd

set_option maxHeartbeats 2000000 in
/-- Execution of the first half of the `call` expansion: the
return-label literal is pushed as a symbolic token, then the caller's
`local`, `argument`, `this`, `that` base pointers (registers 1..4) are
pushed, in that order. -/
theorem callFirstHalf (m : Mem) (idx : Nat) (sp l a t th : Int)
    (h0 : m 0 = .int sp) (h1 : m 1 = .int l) (h2 : m 2 = .int a)
    (h3 : m 3 = .int t) (h4 : m 4 = .int th) (hs : 5 ≤ sp) :
    (execList m [["push", "constant", retLabel (idx + 1)],
      ["push", "pointer", "-2"], ["push", "pointer", "-1"],
      ["push", "pointer", "0"], ["push", "pointer", "1"]]).map
      (fun m' => (m' 0, m' 1, m' 2, m' 3, m' 4,
                  m' sp, m' (sp + 1), m' (sp + 2), m' (sp + 3), m' (sp + 4))) =
    some (.int (sp + 5), .int l, .int a, .int t, .int th,
          .sym (retLabel (idx + 1)), .int l, .int a, .int t, .int th) := by
  simp (disch := omega) only [execList, execLine, segAddr, pushVal, popTo, binop,
    getInt, constVal_retLabel, upd,
    pyInt_m3, pyInt_m2, pyInt_m1, pyInt_0, pyInt_1,
    h0, h1, h2, h3, h4, Option.bind, Option.map, List.cons_append, List.nil_append,
    if_pos, if_neg, Option.some.injEq, Prod.mk.injEq, Val.int.injEq,
    reduceIte, String.reduceEq, Int.reduceAdd, Int.reduceSub, Int.reduceNeg, Int.add_zero]
  repeat' apply And.intro
  all_goals first | trivial | omega

set_option maxHeartbeats 2000000 in
/-- Execution of the second half of the `call` expansion: `argument`
(register 2) becomes `SP - 5 - numArgs` for the stack-pointer value at
that moment, `local` (register 1) becomes that same stack pointer, and
the cells `b0` .. `b4` below the stack top (where the first half saved
the caller's frame) are untouched.  The final `goto`/`label` pair does
not touch memory. -/
theorem callSecondHalf (m : Mem) (fname lbl na : String) (sp n : Int)
    (b0 b1 b2 b3 b4 : Int)
    (h0 : m 0 = .int sp) (hn : pyInt na = some n)
    (hb0 : 3 ≤ b0 ∧ b0 < sp) (hb1 : 3 ≤ b1 ∧ b1 < sp)
    (hb2 : 3 ≤ b2 ∧ b2 < sp) (hb3 : 3 ≤ b3 ∧ b3 < sp)
    (hb4 : 3 ≤ b4 ∧ b4 < sp) :
    (execList m [["push", "pointer", "-3"], ["push", "constant", "5"], ["sub"],
      ["push", "constant", na], ["sub"], ["pop", "pointer", "-1"],
      ["push", "pointer", "-3"], ["pop", "pointer", "-2"],
      ["goto", fname], ["label", lbl]]).map
      (fun m' => (m' 0, m' 1, m' 2, m' b0, m' b1, m' b2, m' b3, m' b4)) =
    some (.int sp, .int sp, .int (sp - 5 - n), m b0, m b1, m b2, m b3, m b4) := by
  have hc := constVal_parse na n hn
  simp (disch := omega) only [execList, execLine, segAddr, pushVal, popTo, binop,
    getInt, constVal_5, hc, upd,
    pyInt_m3, pyInt_m2, pyInt_m1, pyInt_5,
    h0, Option.bind, Option.map, List.cons_append, List.nil_append,
    if_pos, if_neg, Option.some.injEq, Prod.mk.injEq, Val.int.injEq,
    reduceIte, String.reduceEq, Int.reduceAdd, Int.reduceSub, Int.reduceNeg, Int.add_zero]
  repeat' apply And.intro
  all_goals first | trivial | omega

/-- Full semantics of the `call` expansion: with `sp` the entry stack
pointer, the expansion pushes the return-label token and the caller's
`local`, `argument`, `this`, `that` (in that order, at `sp` .. `sp+4`),
then stores `(sp + 5) - 5 - n` — stack pointer at computation time,
minus 5, minus the argument count — into `argument`, and the stack
pointer at that time into `local`. -/
theorem callSem (m : Mem) (funcName numArgs : String) (idx : Nat) (sp l a t th n : Int)
    (hn : pyInt numArgs = some n)
    (h0 : m 0 = .int sp) (h1 : m 1 = .int l) (h2 : m 2 = .int a)
    (h3 : m 3 = .int t) (h4 : m 4 = .int th) (hs : 5 ≤ sp) :
    (execList m (callCmds funcName numArgs idx)).map
      (fun m' => (m' 0, m' 1, m' 2,
                  m' sp, m' (sp + 1), m' (sp + 2), m' (sp + 3), m' (sp + 4))) =
    some (.int (sp + 5), .int (sp + 5), .int (sp + 5 - 5 - n),
          .sym (retLabel (idx + 1)), .int l, .int a, .int t, .int th) := by
  have hsplit : callCmds funcName numArgs idx =
      [["push", "constant", retLabel (idx + 1)],
       ["push", "pointer", "-2"], ["push", "pointer", "-1"],
       ["push", "pointer", "0"], ["push", "pointer", "1"]] ++
      [["push", "pointer", "-3"], ["push", "constant", "5"], ["sub"],
       ["push", "constant", numArgs], ["sub"], ["pop", "pointer", "-1"],
       ["push", "pointer", "-3"], ["pop", "pointer", "-2"],
       ["goto", funcName], ["label", retLabel (idx + 1)]] := rfl
  rw [hsplit, execList_append]
  have hfst := callFirstHalf m idx sp l a t th h0 h1 h2 h3 h4 hs
  rw [Option.map_eq_some'] at hfst
  obtain ⟨m1, hexec, hcells⟩ := hfst
  rw [Prod.mk.injEq] at hcells
  obtain ⟨c0, hcells⟩ := hcells
  rw [Prod.mk.injEq] at hcells
  obtain ⟨c1, hcells⟩ := hcells
  rw [Prod.mk.injEq] at hcells
  obtain ⟨c2, hcells⟩ := hcells
  rw [Prod.mk.injEq] at hcells
  obtain ⟨c3, hcells⟩ := hcells
  rw [Prod.mk.injEq] at hcells
  obtain ⟨c4, hcells⟩ := hcells
  rw [Prod.mk.injEq] at hcells
  obtain ⟨cb0, hcells⟩ := hcells
  rw [Prod.mk.injEq] at hcells
  obtain ⟨cb1, hcells⟩ := hcells
  rw [Prod.mk.injEq] at hcells
  obtain ⟨cb2, hcells⟩ := hcells
  rw [Prod.mk.injEq] at hcells
  obtain ⟨cb3, cb4⟩ := hcells
  rw [hexec, Option.some_bind]
  have hsnd := callSecondHalf m1 funcName (retLabel (idx + 1)) numArgs (sp + 5) n
    sp (sp + 1) (sp + 2) (sp + 3) (sp + 4) c0 hn
    (by omega) (by omega) (by omega) (by omega) (by omega)
  rw [cb0, cb1, cb2, cb3, cb4] at hsnd
  exact hsnd

/-! ## Injectivity of the decimal rendering and return-label facts -/

/-- Decimal value of a character list (digits assumed). -/
def listVal (l : List Char) : Nat :=
  l.foldl (fun a c => 10 * a + (c.toNat - 48)) 0

theorem listVal_aux (l : List Char) (a : Nat) :
    l.foldl (fun x c => 10 * x + (c.toNat - 48)) a =
      a * 10 ^ l.length + listVal l := by
  induction l generalizing a with
  | nil => simp [listVal]
  | cons c cs ih =>
    have h2 : listVal (c :: cs) = (c.toNat - 48) * 10 ^ cs.length + listVal cs := by
      rw [listVal, List.foldl_cons, ih]
      norm_num
    rw [List.foldl_cons, ih, h2, List.length_cons, pow_succ]
    ring

theorem listVal_append_singleton (xs : List Char) (c : Char) :
    listVal (xs ++ [c]) = 10 * listVal xs + (c.toNat - 48) := by
  rw [listVal, List.foldl_append, List.foldl_cons, List.foldl_nil, listVal]

theorem digitChar10_val (k : Nat) (h : k < 10) :
    (digitChar10 k).toNat - 48 = k := by
  interval_cases k <;> decide

theorem listVal_decChars (fuel n : Nat) (h : n < fuel) :
    listVal (decChars fuel n) = n := by
  induction fuel generalizing n with
  | zero => omega
  | succ f ih =>
    rw [decChars]
    by_cases h10 : n < 10
    · rw [if_pos h10]
      have : listVal [digitChar10 n] = 10 * 0 + ((digitChar10 n).toNat - 48) := rfl
      rw [this, digitChar10_val n h10]
      omega
    · rw [if_neg h10, listVal_append_singleton, ih (n / 10) (by omega),
        digitChar10_val (n % 10) (by omega)]
      omega

/-- Python's decimal rendering of naturals is injective. -/
theorem pyNatStr_inj (a b : Nat) (h : pyNatStr a = pyNatStr b) : a = b := by
  have hd : decChars (a + 1) a = decChars (b + 1) b := congrArg String.data h
  have := listVal_decChars (a + 1) a (by omega)
  rw [hd, listVal_decChars (b + 1) b (by omega)] at this
  omega

/-- Distinct call sites get distinct return labels. -/
theorem retLabel_inj (a b : Nat) (h : retLabel a = retLabel b) : a = b := by
  apply pyNatStr_inj
  have hd := congrArg String.data h
  rw [retLabel, retLabel, String.data_append, String.data_append] at hd
  have := List.append_cancel_left hd
  exact congrArg String.mk this

/-! ## Facts about the return indices of a program -/

theorem retIndicesFrom_lt (n : Nat) (prog : List (List String)) :
    ∀ x ∈ retIndicesFrom n prog, n < x := by
  induction prog generalizing n with
  | nil => simp [retIndicesFrom]
  | cons l rest ih =>
    intro x hx
    rw [retIndicesFrom] at hx
    rcases List.mem_append.1 hx with h | h
    · by_cases hc : l.head? = some "call"
      · rw [if_pos hc] at h
        simp at h
        omega
      · rw [if_neg hc] at h
        simp at h
    · have := ih (n + 1) x h
      omega

theorem retIndicesFrom_sorted (n : Nat) (prog : List (List String)) :
    (retIndicesFrom n prog).Pairwise (· < ·) := by
  induction prog generalizing n with
  | nil => exact List.Pairwise.nil
  | cons l rest ih =>
    rw [retIndicesFrom]
    by_cases hc : l.head? = some "call"
    · rw [if_pos hc]
      rw [List.singleton_append, List.pairwise_cons]
      refine ⟨?_, ih (n + 1)⟩
      intro x hx
      exact retIndicesFrom_lt (n + 1) rest x hx
    · rw [if_neg hc, List.nil_append]
      exact ih (n + 1)

theorem retIndicesFrom_length (n : Nat) (prog : List (List String)) :
    (retIndicesFrom n prog).length =
      prog.countP (fun l => l.head? == some "call") := by
  induction prog generalizing n with
  | nil => rfl
  | cons l rest ih =>
    rw [retIndicesFrom, List.length_append, ih (n + 1), List.countP_cons]
    by_cases hc : l.head? = some "call"
    · rw [if_pos hc]
      simp [hc]
      omega
    · rw [if_neg hc]
      simp only [List.length_nil]
      have : (l.head? == some "call") = false := by
        simp [hc]
      rw [this]
      simp

theorem retIndicesFrom_mem (n i : Nat) (prog : List (List String)) (l : List String)
    (hg : prog.get? i = some l) (hc : l.head? = some "call") :
    (n + i + 1) ∈ retIndicesFrom n prog := by
  induction prog generalizing n i with
  | nil => simp at hg
  | cons p rest ih =>
    cases i with
    | zero =>
      rw [List.get?_cons_zero, Option.some.injEq] at hg
      subst hg
      rw [retIndicesFrom, if_pos hc]
      simp
    | succ j =>
      rw [List.get?_cons_succ] at hg
      have := ih (n + 1) j hg
      rw [retIndicesFrom]
      apply List.mem_append.2
      right
      have heq : n + 1 + j + 1 = n + (j + 1) + 1 := by omega
      rw [← heq]
      exact this

/-! ## The comparison-counter characterization -/

/-- The bumped counter dictionary after one comparison command. -/
def cmpBump (c : LtEqGtCounter) (cmd : String) : LtEqGtCounter :=
  if cmd = "lt" then { c with lt := c.lt + 1 }
  else if cmd = "eq" then { c with eq := c.eq + 1 }
  else if cmd = "gt" then { c with gt := c.gt + 1 } else c

theorem ltEqGtStep_eq (c : LtEqGtCounter) (o : String)
    (h : o = "lt" ∨ o = "eq" ∨ o = "gt") :
    ltEqGtStep c o = some (cmpBump c o, cmpGet c o) := by
  rcases h with h | h | h <;> subst h <;> simp [ltEqGtStep, cmpBump, cmpGet]

theorem cmpGet_bump (c : LtEqGtCounter) (o x : String)
    (ho : o = "lt" ∨ o = "eq" ∨ o = "gt") :
    cmpGet (cmpBump c o) x = cmpGet c x + (if x = o then 1 else 0) := by
  rcases ho with ho | ho | ho <;> subst ho <;>
    by_cases h1 : x = "lt" <;> by_cases h2 : x = "eq" <;> by_cases h3 : x = "gt" <;>
    simp_all [cmpGet, cmpBump]

/-- Characterization of the emitted comparison-label indices: each
occurrence of a comparison operator is numbered by how many times that
same operator occurred before it, starting from the counters `c`. -/
theorem cmpIndices_spec (ops : List String) (c : LtEqGtCounter)
    (h : ∀ o ∈ ops, o = "lt" ∨ o = "eq" ∨ o = "gt") :
    ∃ l, cmpIndices c ops = some l ∧ l.length = ops.length ∧
      ∀ i o, ops.get? i = some o →
        l.get? i = some (cmpGet c o + (ops.take i).count o) := by
  induction ops generalizing c with
  | nil => exact ⟨[], rfl, rfl, by simp⟩
  | cons hd tl ih =>
    have hhd := h hd (List.mem_cons_self hd tl)
    obtain ⟨l', hl', hlen, hspec⟩ := ih (cmpBump c hd) (fun o ho => h o (List.mem_cons_of_mem hd ho))
    refine ⟨cmpGet c hd :: l', ?_, by simp [hlen], ?_⟩
    · rw [cmpIndices, ltEqGtStep_eq c hd hhd]
      simp [hl']
    · intro i o hg
      cases i with
      | zero =>
        rw [List.get?_cons_zero, Option.some.injEq] at hg
        subst hg
        simp [List.take_zero, List.count_nil]
      | succ j =>
        rw [List.get?_cons_succ] at hg
        rw [List.get?_cons_succ, hspec j o hg, Option.some.injEq]
        rw [cmpGet_bump c hd o hhd]
        rw [List.take_succ_cons, List.count_cons]
        by_cases he : o = hd
        · rw [if_pos he, if_pos (by simp [he])]
          omega
        · rw [if_neg he]
          simp only [beq_iff_eq]
          rw [if_neg (mt Eq.symm he)]
          omega

/-- Within one operator, later occurrences get strictly larger indices:
labels of repeated uses of the same operator never collide. -/
theorem cmpIndices_no_collision (ops : List String) (l : List Nat)
    (h : ∀ o ∈ ops, o = "lt" ∨ o = "eq" ∨ o = "gt")
    (hl : cmpIndices cmp0 ops = some l)
    (i j : Nat) (o : String) (hij : i < j)
    (hi : ops.get? i = some o) (hj : ops.get? j = some o) :
    l.get? i ≠ l.get? j := by
  obtain ⟨l', hl', _, hspec⟩ := cmpIndices_spec ops cmp0 h
  rw [hl'] at hl
  rw [Option.some.injEq] at hl
  subst hl
  rw [hspec i o hi, hspec j o hj]
  have hmono : (ops.take (i + 1)).count o ≤ (ops.take j).count o := by
    have hpre : (ops.take (i + 1)) <+: (ops.take j) := by
      have := List.take_prefix (i + 1) (ops.take j)
      rw [List.take_take, min_eq_left (by omega)] at this
      exact this
    exact hpre.sublist.count_le o
  have hstep : (ops.take (i + 1)).count o = (ops.take i).count o + 1 := by
    rw [List.take_succ, List.count_append]
    have hgg : ops[i]? = some o := by
      rw [← List.get?_eq_getElem?]
      exact hi
    rw [hgg]
    simp
  intro hcontra
  rw [Option.some.injEq] at hcontra
  omega

/-! ## `Except`-monad plumbing -/

theorem exbind_ok {α β : Type} (x : α) (f : α → Except TrErr β) :
    (Except.ok x >>= f) = f x := rfl

theorem exbind_error {α β : Type} (e : TrErr) (f : α → Except TrErr β) :
    ((Except.error e : Except TrErr α) >>= f) = .error e := rfl

theorem expure {α : Type} (x : α) : (pure x : Except TrErr α) = .ok x := rfl

theorem exbind_ok_iff {α β : Type} {e : Except TrErr α} {f : α → Except TrErr β}
    {b : β} : (e >>= f) = .ok b ↔ ∃ x, e = .ok x ∧ f x = .ok b := by
  cases e with
  | error err => simp [exbind_error]
  | ok x => simp [exbind_ok]

/-- The property that one translation step only appends to the output
and leaves the pattern table and nothing else but the counters behind. -/
def Extends (st st' : TransState) : Prop :=
  st'.patterns = st.patterns ∧ ∃ b, st'.asm = st.asm ++ b

theorem Extends.refl (st : TransState) : Extends st st :=
  ⟨rfl, "", by simp⟩

theorem Extends.trans {s1 s2 s3 : TransState} (h1 : Extends s1 s2)
    (h2 : Extends s2 s3) : Extends s1 s3 := by
  obtain ⟨hp1, b1, hb1⟩ := h1
  obtain ⟨hp2, b2, hb2⟩ := h2
  exact ⟨hp2.trans hp1, b1 ++ b2, by rw [hb2, hb1, String.append_assoc]⟩

theorem foldlM_extends
    (g : TransState → List String → Except TrErr TransState)
    (hg : ∀ s l s', g s l = .ok s' → Extends s s')
    (cmds : List (List String)) :
    ∀ st st', cmds.foldlM g st = .ok st' → Extends st st' := by
  induction cmds with
  | nil =>
    intro st st' h
    rw [List.foldlM_nil] at h
    cases h
    exact Extends.refl st
  | cons c cs ih =>
    intro st st' h
    rw [List.foldlM_cons] at h
    rw [exbind_ok_iff] at h
    obtain ⟨s1, hs1, hrest⟩ := h
    exact (hg st c s1 hs1).trans (ih s1 st' hrest)

theorem foldlM_congr {α β : Type}
    (g g' : β → α → Except TrErr β) (cmds : List α)
    (h : ∀ s a, a ∈ cmds → g s a = g' s a) :
    ∀ st, cmds.foldlM g st = cmds.foldlM g' st := by
  induction cmds with
  | nil => intro st; rfl
  | cons c cs ih =>
    intro st
    rw [List.foldlM_cons, List.foldlM_cons, h st c (List.mem_cons_self c cs)]
    cases g' st c with
    | error e => rfl
    | ok s1 =>
      rw [exbind_ok, exbind_ok]
      exact ih (fun s a ha => h s a (List.mem_cons_of_mem c ha)) s1

theorem core_extends
    (rec : TransState → List String → String → Nat → Except TrErr TransState)
    (hrec : ∀ s l c i s', rec s l c i = .ok s' → Extends s s')
    (st : TransState) (line : List String) (cn : String) (idx : Nat)
    (st' : TransState) (h : translateCore rec st line cn idx = .ok st') :
    Extends st st' := by
  rw [translateCore] at h
  rw [exbind_ok_iff] at h
  obtain ⟨cmd, hcmd, h⟩ := h
  have hst1 : Extends st (if cmd = "label" then st
      else { st with asm := st.asm ++ commentOf line }) := by
    split
    · exact Extends.refl st
    · exact ⟨rfl, commentOf line, rfl⟩
  generalize hs : (if cmd = "label" then st
      else { st with asm := st.asm ++ commentOf line }) = st1 at h hst1
  rw [translateBranch] at h
  refine hst1.trans ?_
  split at h
  · -- push / pop
    rw [exbind_ok_iff] at h
    obtain ⟨seg, hseg, h⟩ := h
    rw [exbind_ok_iff] at h
    obtain ⟨i, hi, h⟩ := h
    rw [exbind_ok_iff] at h
    obtain ⟨e, he, h⟩ := h
    rw [exbind_ok_iff] at h
    obtain ⟨pat, hpat, h⟩ := h
    rw [exbind_ok_iff] at h
    obtain ⟨code, hcode, h⟩ := h
    rw [expure] at h
    cases h
    exact ⟨rfl, code ++ "\n", by simp [String.append_assoc]⟩
  · split at h
    · -- label / goto / if-goto
      rw [exbind_ok_iff] at h
      obtain ⟨pat, hpat, h⟩ := h
      rw [exbind_ok_iff] at h
      obtain ⟨lbl, hlbl, h⟩ := h
      rw [exbind_ok_iff] at h
      obtain ⟨code, hcode, h⟩ := h
      rw [expure] at h
      cases h
      exact ⟨rfl, code ++ "\n", by simp [String.append_assoc]⟩
    · split at h
      · -- add / sub / or / and
        rw [exbind_ok_iff] at h
        obtain ⟨pat, hpat, h⟩ := h
        rw [exbind_ok_iff] at h
        obtain ⟨code, hcode, h⟩ := h
        rw [expure] at h
        cases h
        exact ⟨rfl, code ++ "\n", by simp [String.append_assoc]⟩
      · split at h
        · -- neg / not
          rw [exbind_ok_iff] at h
          obtain ⟨pat, hpat, h⟩ := h
          rw [exbind_ok_iff] at h
          obtain ⟨code, hcode, h⟩ := h
          rw [expure] at h
          cases h
          exact ⟨rfl, code ++ "\n", by simp [String.append_assoc]⟩
        · split at h
          · -- lt / eq / gt
            rw [exbind_ok_iff] at h
            obtain ⟨pat, hpat, h⟩ := h
            split at h
            · rw [exbind_ok_iff] at h
              obtain ⟨code, hcode, h⟩ := h
              rw [expure] at h
              cases h
              exact ⟨rfl, code ++ "\n", by simp [String.append_assoc]⟩
            · cases h
          · split at h
            · -- function
              rw [exbind_ok_iff] at h
              obtain ⟨pat, hpat, h⟩ := h
              rw [exbind_ok_iff] at h
              obtain ⟨itok, hitok, h⟩ := h
              split at h
              · rw [exbind_ok_iff] at h
                obtain ⟨i, hi, h⟩ := h
                rw [exbind_ok_iff] at h
                obtain ⟨fname, hfname, h⟩ := h
                exact foldlM_extends _ (fun s l s' hsl => hrec s l "" 0 s' hsl) _ st1 st' h
              · cases h
            · split at h
              · -- call
                rw [exbind_ok_iff] at h
                obtain ⟨pat, hpat, h⟩ := h
                rw [exbind_ok_iff] at h
                obtain ⟨fname, hfname, h⟩ := h
                rw [exbind_ok_iff] at h
                obtain ⟨na, hna, h⟩ := h
                exact foldlM_extends _ (fun s l s' hsl => hrec s l "" 0 s' hsl) _ st1 st' h
              · split at h
                · -- return
                  rw [exbind_ok_iff] at h
                  obtain ⟨pat, hpat, h⟩ := h
                  rw [exbind_ok_iff] at h
                  obtain ⟨st2, hst2, h⟩ := h
                  rw [exbind_ok_iff] at h
                  obtain ⟨code, hcode, h⟩ := h
                  rw [expure] at h
                  cases h
                  refine (foldlM_extends _ (fun s l s' hsl => hrec s l "" 0 s' hsl) _ st1 st2 hst2).trans ?_
                  exact ⟨rfl, code ++ "\n", by simp [String.append_assoc]⟩
                · cases h

theorem translate_extends (fuel : Nat) :
    ∀ st line cn idx st', translateFuel fuel st line cn idx = .ok st' →
      Extends st st' := by
  induction fuel with
  | zero => intro st line cn idx st' h; cases h
  | succ f ih =>
    intro st line cn idx st' h
    rw [translateFuel] at h
    exact core_extends (translateFuel f) (fun s l c i s' hh => ih s l c i s' hh)
      st line cn idx st' h

/-! ## Depth of the expansion recursion -/

/-- The opcodes that never expand further. -/
def baseOps : List String := ["label", "push", "pop", "goto", "add", "sub"]

/-- A line whose opcode is drawn from `baseOps`. -/
def isBaseCmd (line : List String) : Bool :=
  match line.head? with
  | some c => baseOps.contains c
  | none => false

theorem callCmds_base (f na : String) (i : Nat) :
    (callCmds f na i).all isBaseCmd = true := rfl

theorem returnCmds_base : returnCmds.all isBaseCmd = true := rfl

theorem functionCmds_base (f : String) (n : Nat) :
    (functionCmds f n).all isBaseCmd = true := by
  rw [functionCmds, List.all_cons]
  have h1 : isBaseCmd ["label", f] = true := rfl
  rw [h1, Bool.true_and, List.all_eq_true]
  intro x hx
  rw [List.eq_of_mem_replicate hx]
  rfl

theorem exbind_congr {α β : Type} (e : Except TrErr α)
    (f f' : α → Except TrErr β) (h : ∀ a, f a = f' a) :
    (e >>= f) = (e >>= f') := by
  cases e with
  | error err => rfl
  | ok x => exact h x

theorem exbind_congr_ok {α β : Type} (e : Except TrErr α)
    (f f' : α → Except TrErr β) (h : ∀ a, e = .ok a → f a = f' a) :
    (e >>= f) = (e >>= f') := by
  cases e with
  | error err => rfl
  | ok x => exact h x rfl

theorem idxGet_zero (l : List String) (x : String) (h : idxGet l 0 = .ok x) :
    l.head? = some x := by
  rw [idxGet] at h
  cases l with
  | nil => cases h
  | cons c rest =>
    rw [List.get?_cons_zero] at h
    cases h
    rfl

/-- On a non-expanding line, one dispatch layer never consults the
recursive translator at all. -/
theorem base_core_irrel
    (rec rec' : TransState → List String → String → Nat → Except TrErr TransState)
    (st : TransState) (line : List String) (cn : String) (idx : Nat)
    (h : isBaseCmd line = true) :
    translateCore rec st line cn idx = translateCore rec' st line cn idx := by
  rw [translateCore, translateCore]
  apply exbind_congr_ok
  intro cmd hcmd
  have hbase : baseOps.contains cmd = true := by
    rw [isBaseCmd, idxGet_zero line cmd hcmd] at h
    exact h
  have hne : cmd ≠ "function" ∧ cmd ≠ "call" ∧ cmd ≠ "return" := by
    revert hbase
    rw [baseOps]
    simp only [List.contains]
    intro hb
    rcases (by simpa using hb :
      cmd = "label" ∨ cmd = "push" ∨ cmd = "pop" ∨ cmd = "goto" ∨
        cmd = "add" ∨ cmd = "sub") with h | h | h | h | h | h <;>
      subst h <;> exact ⟨by decide, by decide, by decide⟩
  rw [translateBranch, translateBranch]
  by_cases h1 : cmd = "push" ∨ cmd = "pop"
  · rw [if_pos h1, if_pos h1]
  · rw [if_neg h1, if_neg h1]
    by_cases h2 : cmd = "label" ∨ cmd = "goto" ∨ cmd = "if-goto"
    · rw [if_pos h2, if_pos h2]
    · rw [if_neg h2, if_neg h2]
      by_cases h3 : cmd = "add" ∨ cmd = "sub" ∨ cmd = "or" ∨ cmd = "and"
      · rw [if_pos h3, if_pos h3]
      · rw [if_neg h3, if_neg h3]
        by_cases h4 : cmd = "neg" ∨ cmd = "not"
        · rw [if_pos h4, if_pos h4]
        · rw [if_neg h4, if_neg h4]
          by_cases h5 : cmd = "lt" ∨ cmd = "eq" ∨ cmd = "gt"
          · rw [if_pos h5, if_pos h5]
          · rw [if_neg h5, if_neg h5]
            by_cases h6 : cmd = "function"
            · exact absurd h6 hne.1
            · rw [if_neg h6, if_neg h6]
              by_cases h7 : cmd = "call"
              · exact absurd h7 hne.2.1
              · rw [if_neg h7, if_neg h7]
                by_cases h8 : cmd = "return"
                · exact absurd h8 hne.2.2
                · rw [if_neg h8, if_neg h8]

/-- One dispatch layer only consults the recursive translator on the
sub-instructions it synthesizes, and those are all non-expanding. -/
theorem core_rec_congr
    (rec rec' : TransState → List String → String → Nat → Except TrErr TransState)
    (hagree : ∀ s l c i, isBaseCmd l = true → rec s l c i = rec' s l c i)
    (st : TransState) (line : List String) (cn : String) (idx : Nat) :
    translateCore rec st line cn idx = translateCore rec' st line cn idx := by
  rw [translateCore, translateCore]
  apply exbind_congr
  intro cmd
  rw [translateBranch, translateBranch]
  by_cases h1 : cmd = "push" ∨ cmd = "pop"
  · rw [if_pos h1, if_pos h1]
  · rw [if_neg h1, if_neg h1]
    by_cases h2 : cmd = "label" ∨ cmd = "goto" ∨ cmd = "if-goto"
    · rw [if_pos h2, if_pos h2]
    · rw [if_neg h2, if_neg h2]
      by_cases h3 : cmd = "add" ∨ cmd = "sub" ∨ cmd = "or" ∨ cmd = "and"
      · rw [if_pos h3, if_pos h3]
      · rw [if_neg h3, if_neg h3]
        by_cases h4 : cmd = "neg" ∨ cmd = "not"
        · rw [if_pos h4, if_pos h4]
        · rw [if_neg h4, if_neg h4]
          by_cases h5 : cmd = "lt" ∨ cmd = "eq" ∨ cmd = "gt"
          · rw [if_pos h5, if_pos h5]
          · rw [if_neg h5, if_neg h5]
            by_cases h6 : cmd = "function"
            · rw [if_pos h6, if_pos h6]
              apply exbind_congr
              intro pat
              apply exbind_congr
              intro itok
              cases pyInt itok with
              | none => rfl
              | some v =>
                apply exbind_congr
                intro i
                apply exbind_congr
                intro fname
                apply foldlM_congr
                intro s l hl
                have hb := functionCmds_base fname i.toNat
                rw [List.all_eq_true] at hb
                exact hagree s l "" 0 (hb l hl)
            · rw [if_neg h6, if_neg h6]
              by_cases h7 : cmd = "call"
              · rw [if_pos h7, if_pos h7]
                apply exbind_congr
                intro pat
                apply exbind_congr
                intro fname
                apply exbind_congr
                intro na
                apply foldlM_congr
                intro s l hl
                have hb := callCmds_base fname na idx
                rw [List.all_eq_true] at hb
                exact hagree s l "" 0 (hb l hl)
              · rw [if_neg h7, if_neg h7]
                by_cases h8 : cmd = "return"
                · rw [if_pos h8, if_pos h8]
                  apply exbind_congr
                  intro pat
                  have hfold := foldlM_congr (fun s l => rec s l "" 0)
                    (fun s l => rec' s l "" 0) returnCmds
                    (fun s l hl => hagree s l "" 0 (by
                      have hb := returnCmds_base
                      rw [List.all_eq_true] at hb
                      exact hb l hl))
                  rw [hfold]
                · rw [if_neg h8, if_neg h8]

/-- Fuel beyond 2 never changes the result of translation: the mutual
recursion between the dispatcher and the expansion handlers reaches
nesting depth at most one. -/
theorem translateFuel_stable (f : Nat) (st : TransState) (line : List String)
    (cn : String) (idx : Nat) :
    translateFuel (f + 2) st line cn idx = translateFuel 2 st line cn idx := by
  show translateCore (translateFuel (f + 1)) st line cn idx =
    translateCore (translateFuel 1) st line cn idx
  apply core_rec_congr
  intro s l c i hbase
  show translateCore (translateFuel f) s l c i = translateCore (translateFuel 0) s l c i
  exact base_core_irrel (translateFuel f) (translateFuel 0) s l c i hbase

/-! ## Dispatch equations for specific instructions -/

theorem popPushExpr_const_nonint (cn t : String) (h : pyInt t = none) :
    popPushExpr cn "constant" t = some (t, none, none) := by
  simp [popPushExpr, h]

theorem popPushExpr_local_m1 (cn : String) :
    popPushExpr cn "local" "-1" = some ("1", some "1", some "-") := rfl

theorem popPushExpr_pointer_12 (cn : String) :
    popPushExpr cn "pointer" "12" = some ("12", some "+", none) := rfl

/-- Translating `call f na` re-enters the dispatcher: after the comment
is appended and the `_call` pattern found, the result is exactly the
fold of the (one-level-less) translator over the synthesized
sub-instructions. -/
theorem call_dispatch (fuel : Nat) (st : TransState) (f na cn : String)
    (idx : Nat) (pat : Pattern) (hp : lookupPat st "_call" = .ok pat) :
    translateFuel (fuel + 1) st ["call", f, na] cn idx =
      (callCmds f na idx).foldlM (fun s l => translateFuel fuel s l "" 0)
        { st with asm := st.asm ++ commentOf ["call", f, na] } := by
  rw [translateFuel, translateCore]
  rw [show idxGet ["call", f, na] 0 = Except.ok "call" from rfl, exbind_ok]
  rw [if_neg (by decide), translateBranch]
  rw [if_neg (by decide), if_neg (by decide), if_neg (by decide),
    if_neg (by decide), if_neg (by decide), if_neg (by decide), if_pos rfl]
  have hp' : lookupPat { st with asm := st.asm ++ commentOf ["call", f, na] }
      "_call" = .ok pat := hp
  rw [hp', exbind_ok]
  rw [show idxGet ["call", f, na] 1 = Except.ok f from rfl, exbind_ok]
  rw [show idxGet ["call", f, na] 2 = Except.ok na from rfl, exbind_ok]

/-- Translating `return` re-enters the dispatcher: the output block is
the comment, then the blocks of the synthesized sub-instructions, then
the formatted `_return` template (the final indirect jump). -/
theorem return_dispatch (fuel : Nat) (st : TransState) (cn : String)
    (idx : Nat) (pat : Pattern) (hp : lookupPat st "_return" = .ok pat) :
    translateFuel (fuel + 1) st ["return"] cn idx =
      (returnCmds.foldlM (fun s l => translateFuel fuel s l "" 0)
          { st with asm := st.asm ++ commentOf ["return"] }) >>= fun st2 =>
        (formatPat pat (some (pyNatStr ret_addr)) none none) >>= fun code =>
          pure { st2 with asm := st2.asm ++ code ++ "\n" } := by
  rw [translateFuel, translateCore]
  rw [show idxGet ["return"] 0 = Except.ok "return" from rfl, exbind_ok]
  rw [if_neg (by decide), translateBranch]
  rw [if_neg (by decide), if_neg (by decide), if_neg (by decide),
    if_neg (by decide), if_neg (by decide), if_neg (by decide),
    if_neg (by decide), if_pos rfl]
  have hp' : lookupPat { st with asm := st.asm ++ commentOf ["return"] }
      "_return" = .ok pat := hp
  rw [hp', exbind_ok]

/-- Translating `push constant t` for a non-integer token `t`: the
token is substituted verbatim as `var_1` (and the unused `var_2`,
`var_3` render as Python `None` would). -/
theorem push_const_dispatch (fuel : Nat) (st : TransState) (t cn : String)
    (idx : Nat) (pat : Pattern) (h : pyInt t = none)
    (hp : lookupPat st "_push constant" = .ok pat) :
    translateFuel (fuel + 1) st ["push", "constant", t] cn idx =
      (formatPat pat (some t) (some "None") (some "None")) >>= fun code =>
        pure { st with asm := (st.asm ++ commentOf ["push", "constant", t]) ++ code ++ "\n" } := by
  rw [translateFuel, translateCore]
  rw [show idxGet ["push", "constant", t] 0 = Except.ok "push" from rfl, exbind_ok]
  rw [if_neg (by decide), translateBranch]
  rw [if_pos (by decide)]
  rw [show idxGet ["push", "constant", t] 1 = Except.ok "constant" from rfl, exbind_ok]
  rw [show idxGet ["push", "constant", t] 2 = Except.ok t from rfl, exbind_ok]
  have he : popPushExprE cn "constant" t = .ok (t, none, none) := by
    rw [popPushExprE, popPushExpr_const_nonint cn t h]
  rw [he, exbind_ok]
  have hp' : lookupPat
      { st with asm := st.asm ++ commentOf ["push", "constant", t] }
      "_push constant" = .ok pat := hp
  rw [show trPatternName "push" "constant" = "_push constant" from rfl, hp', exbind_ok]
  rfl

/-- Translating `pop local -1`: the class name and instruction index
play no role, and the negative offset is accepted, split into magnitude
`1` and sign `-` exactly as for the internally synthesized frame
arithmetic. -/
theorem pop_local_m1_dispatch (fuel : Nat) (st : TransState) (cn : String)
    (idx : Nat) (pat : Pattern) (hp : lookupPat st "_pop loc" = .ok pat) :
    translateFuel (fuel + 1) st ["pop", "local", "-1"] cn idx =
      (formatPat pat (some "1") (some "1") (some "-")) >>= fun code =>
        pure { st with asm := (st.asm ++ commentOf ["pop", "local", "-1"]) ++ code ++ "\n" } := by
  rw [translateFuel, translateCore]
  rw [show idxGet ["pop", "local", "-1"] 0 = Except.ok "pop" from rfl, exbind_ok]
  rw [if_neg (by decide), translateBranch]
  rw [if_pos (by decide)]
  rw [show idxGet ["pop", "local", "-1"] 1 = Except.ok "local" from rfl, exbind_ok]
  rw [show idxGet ["pop", "local", "-1"] 2 = Except.ok "-1" from rfl, exbind_ok]
  have he : popPushExprE cn "local" "-1" = .ok ("1", some "1", some "-") := by
    rw [popPushExprE, popPushExpr_local_m1 cn]
  rw [he, exbind_ok]
  have hp' : lookupPat
      { st with asm := st.asm ++ commentOf ["pop", "local", "-1"] }
      "_pop loc" = .ok pat := hp
  rw [show trPatternName "pop" "local" = "_pop loc" from rfl, hp', exbind_ok]
  rfl

/-- Translating a comparison operator: the operator's own counter is
incremented first, and the label index rendered into the template is
the pre-increment value (`counter - 1` after the bump). -/
theorem cmp_dispatch (fuel : Nat) (st : TransState) (cmd cn : String)
    (idx : Nat) (pat : Pattern)
    (hv : cmd = "lt" ∨ cmd = "eq" ∨ cmd = "gt")
    (hp : lookupPat st "_lt_eq_gt" = .ok pat) :
    translateFuel (fuel + 1) st [cmd] cn idx =
      (formatPat pat (some cmd.toUpper) (jumpSymbol cmd)
          (some (pyNatStr (cmpGet st.cnt cmd)))) >>= fun code =>
        pure { st with cnt := cmpBump st.cnt cmd,
                       asm := (st.asm ++ commentOf [cmd]) ++ code ++ "\n" } := by
  have hstep : ltEqGtStep st.cnt cmd = some (cmpBump st.cnt cmd, cmpGet st.cnt cmd) :=
    ltEqGtStep_eq st.cnt cmd hv
  rcases hv with hc | hc | hc <;> subst hc <;>
  · rw [translateFuel, translateCore]
    rw [show idxGet [_] 0 = Except.ok _ from rfl, exbind_ok]
    rw [if_neg (by decide), translateBranch]
    rw [if_neg (by decide), if_neg (by decide), if_neg (by decide),
      if_neg (by decide), if_pos (by decide)]
    rw [show lookupPat { st with asm := st.asm ++ commentOf [_] } "_lt_eq_gt" =
      Except.ok pat from hp, exbind_ok]
    rw [show ({ st with asm := st.asm ++ commentOf [_] } : TransState).cnt =
      st.cnt from rfl, hstep]

/-! ## Concrete fixtures for witnesses and counterexamples -/

/-- A concrete machine state for exercising the `call` expansion. -/
def cMemCall : Mem := fun x =>
  if x = 0 then .int 256 else if x = 1 then .int 300 else if x = 2 then .int 310
  else if x = 3 then .int 320 else if x = 4 then .int 330 else .int 0

/-- A concrete machine state for exercising the `return` expansion. -/
def cMemRet : Mem := fun x =>
  if x = 0 then .int 310 else if x = 1 then .int 300 else if x = 2 then .int 290
  else .int 0

/-- A concrete parsed program with two `call` sites. -/
def cProg : List (List String) :=
  [["push", "constant", "1"], ["call", "Foo", "2"], ["call", "Bar", "0"]]

/-! ## The claims -/

/-- C1.  The `call F n` expansion consists, in order, of: (a) a push of
the literal return-label token for this call site, (b) pushes of the
caller's `local`, `argument`, `this`, `that` base pointers in that
fixed order, (c) a computation storing the new `argument` base as
`stackPointer - 5 - n` (for the stack-pointer value at computation
time, `sp + 5`), (d) a computation storing the new `local` base as the
current stack pointer, (e) an unconditional jump to `F`, and (f) the
declaration of the return label; every step is an ordinary
push/pop/arithmetic/goto/label instruction, and the `call` handler runs
the whole list back through the same dispatch. -/
theorem call_expansion_steps (f na cn : String) (idx : Nat) (n : Int)
    (m : Mem) (sp l a t th : Int)
    (hn : pyInt na = some n) (h0 : m 0 = .int sp) (h1 : m 1 = .int l)
    (h2 : m 2 = .int a) (h3 : m 3 = .int t) (h4 : m 4 = .int th)
    (hs : 5 ≤ sp) :
    callCmds f na idx =
      [["push", "constant", retLabel (idx + 1)]] ++
      [["push", "pointer", "-2"], ["push", "pointer", "-1"],
       ["push", "pointer", "0"], ["push", "pointer", "1"]] ++
      [["push", "pointer", "-3"], ["push", "constant", "5"], ["sub"],
       ["push", "constant", na], ["sub"], ["pop", "pointer", "-1"]] ++
      [["push", "pointer", "-3"], ["pop", "pointer", "-2"]] ++
      [["goto", f]] ++
      [["label", retLabel (idx + 1)]] ∧
    (callCmds f na idx).all isBaseCmd = true ∧
    (execList m (callCmds f na idx)).map
      (fun m' => (m' 0, m' 1, m' 2,
                  m' sp, m' (sp + 1), m' (sp + 2), m' (sp + 3), m' (sp + 4))) =
      some (.int (sp + 5), .int (sp + 5), .int (sp + 5 - 5 - n),
            .sym (retLabel (idx + 1)), .int l, .int a, .int t, .int th) ∧
    (∀ fuel st pat, lookupPat st "_call" = .ok pat →
      translateFuel (fuel + 1) st ["call", f, na] cn idx =
        (callCmds f na idx).foldlM (fun s l => translateFuel fuel s l "" 0)
          { st with asm := st.asm ++ commentOf ["call", f, na] }) :=
  ⟨rfl, callCmds_base f na idx,
   callSem m f na idx sp l a t th n hn h0 h1 h2 h3 h4 hs,
   fun fuel st pat hp => call_dispatch fuel st f na cn idx pat hp⟩

/-- Witness for C1 at a concrete call site and machine state. -/
theorem call_expansion_steps_witness :
    callCmds "Foo" "2" 7 =
      [["push", "constant", retLabel 8]] ++
      [["push", "pointer", "-2"], ["push", "pointer", "-1"],
       ["push", "pointer", "0"], ["push", "pointer", "1"]] ++
      [["push", "pointer", "-3"], ["push", "constant", "5"], ["sub"],
       ["push", "constant", "2"], ["sub"], ["pop", "pointer", "-1"]] ++
      [["push", "pointer", "-3"], ["pop", "pointer", "-2"]] ++
      [["goto", "Foo"]] ++
      [["label", retLabel 8]] ∧
    (callCmds "Foo" "2" 7).all isBaseCmd = true ∧
    (execList cMemCall (callCmds "Foo" "2" 7)).map
      (fun m' => (m' 0, m' 1, m' 2,
                  m' 256, m' (256 + 1), m' (256 + 2), m' (256 + 3), m' (256 + 4))) =
      some (.int (256 + 5), .int (256 + 5), .int (256 + 5 - 5 - 2),
            .sym (retLabel 8), .int 300, .int 310, .int 320, .int 330) ∧
    (∀ fuel st pat, lookupPat st "_call" = .ok pat →
      translateFuel (fuel + 1) st ["call", "Foo", "2"] "Main" 7 =
        (callCmds "Foo" "2" 7).foldlM (fun s l => translateFuel fuel s l "" 0)
          { st with asm := st.asm ++ commentOf ["call", "Foo", "2"] }) :=
  call_expansion_steps "Foo" "2" "Main" 7 2 cMemCall 256 300 310 320 330
    (by decide) rfl rfl rfl rfl rfl (by decide)

/-- C2 counterexample.  The claim says the implementation snapshots the
`local` base before the first restore mutates it.  No snapshot exists:
the only instruction form that reads the `local` base register itself
is `push pointer -2`, which never occurs in the `return` expansion, and
all five frame reads go through the live `local` segment (segment
`local`, i.e. indirection through the current base register). -/
theorem return_no_snapshot :
    (returnCmds.all fun c => !(c == ["push", "pointer", "-2"])) = true ∧
    returnCmds.filter
        (fun c => c.head? == some "push" && c.get? 1 == some "local") =
      [["push", "local", "-5"], ["push", "local", "-1"], ["push", "local", "-2"],
       ["push", "local", "-3"], ["push", "local", "-4"]] := by decide

/-- C2 (amended).  The `return` expansion restores `that`, `this`,
`argument`, `local`, in that order, each read at offset `-1` .. `-4`
below the current `local` base — through the live base register, with
no snapshot; the order is what makes this safe, since `local` is the
last register overwritten and every restore reads the original frame
words `m (local - k)`. -/
theorem return_restores_in_order (m : Mem) (sp lcl arg : Int)
    (h0 : m 0 = .int sp) (h1 : m 1 = .int lcl) (h2 : m 2 = .int arg)
    (ha : 16 ≤ arg) (hl : arg + 5 ≤ lcl) (hs : lcl + 1 ≤ sp) :
    returnCmds =
      [["push", "local", "-5"], ["pop", "pointer", "12"]] ++
      [["pop", "argument", "0"]] ++
      [["push", "pointer", "-1"], ["push", "constant", "1"], ["add"],
       ["pop", "pointer", "11"]] ++
      [["push", "local", "-1"], ["pop", "pointer", "1"]] ++
      [["push", "local", "-2"], ["pop", "pointer", "0"]] ++
      [["push", "local", "-3"], ["pop", "pointer", "-1"]] ++
      [["push", "local", "-4"], ["pop", "pointer", "-2"]] ++
      [["push", "pointer", "11"], ["pop", "pointer", "-3"]] ∧
    (execList m returnCmds).map
      (fun m' => (m' 0, m' 1, m' 2, m' 3, m' 4, m' 15, m' arg)) =
    some (.int (arg + 1), m (lcl - 4), m (lcl - 3), m (lcl - 2), m (lcl - 1),
          m (lcl - 5), m (sp - 1)) :=
  ⟨rfl, returnSem m sp lcl arg h0 h1 h2 ha hl hs⟩

/-- Witness for C2 at a concrete machine state. -/
theorem return_restores_in_order_witness :
    returnCmds =
      [["push", "local", "-5"], ["pop", "pointer", "12"]] ++
      [["pop", "argument", "0"]] ++
      [["push", "pointer", "-1"], ["push", "constant", "1"], ["add"],
       ["pop", "pointer", "11"]] ++
      [["push", "local", "-1"], ["pop", "pointer", "1"]] ++
      [["push", "local", "-2"], ["pop", "pointer", "0"]] ++
      [["push", "local", "-3"], ["pop", "pointer", "-1"]] ++
      [["push", "local", "-4"], ["pop", "pointer", "-2"]] ++
      [["push", "pointer", "11"], ["pop", "pointer", "-3"]] ∧
    (execList cMemRet returnCmds).map
      (fun m' => (m' 0, m' 1, m' 2, m' 3, m' 4, m' 15, m' 290)) =
    some (.int (290 + 1), cMemRet (300 - 4), cMemRet (300 - 3), cMemRet (300 - 2),
          cMemRet (300 - 1), cMemRet (300 - 5), cMemRet (310 - 1)) :=
  return_restores_in_order cMemRet 310 300 290 rfl rfl rfl
    (by decide) (by decide) (by decide)

/-- C3.  Return labels across the call sites of a program: the index
assigned to each `call` (its position in the enumerated program plus
one) grows strictly along the program, one index per call site, so the
`RETURN_<n>` labels are pairwise distinct; each call site's expansion
declares exactly its own label and pushes it as the return-address
literal. -/
theorem return_labels_unique (prog : List (List String)) :
    (retIndices prog).Pairwise (· < ·) ∧
    (retIndices prog).length = prog.countP (fun l => l.head? == some "call") ∧
    ((retIndices prog).map retLabel).Nodup ∧
    (∀ i f na rest, prog.get? i = some ("call" :: f :: na :: rest) →
      (i + 1) ∈ retIndices prog ∧
      ["label", retLabel (i + 1)] ∈ callCmds f na i ∧
      (callCmds f na i).head? = some ["push", "constant", retLabel (i + 1)]) := by
  refine ⟨retIndicesFrom_sorted 0 prog, retIndicesFrom_length 0 prog, ?_, ?_⟩
  · have hp := retIndicesFrom_sorted 0 prog
    rw [List.Nodup, List.pairwise_map]
    exact hp.imp fun hab he => absurd (retLabel_inj _ _ he) (Nat.ne_of_lt hab)
  · intro i f na rest hg
    refine ⟨?_, ?_, rfl⟩
    · have := retIndicesFrom_mem 0 i prog ("call" :: f :: na :: rest) hg rfl
      simpa using this
    · simp [callCmds]

/-- Witness for C3 on a concrete two-call program. -/
theorem return_labels_unique_witness :
    (retIndices cProg).Pairwise (· < ·) ∧
    (retIndices cProg).length = cProg.countP (fun l => l.head? == some "call") ∧
    ((retIndices cProg).map retLabel).Nodup ∧
    ((1 + 1) ∈ retIndices cProg ∧
      ["label", retLabel (1 + 1)] ∈ callCmds "Foo" "2" 1 ∧
      (callCmds "Foo" "2" 1).head? = some ["push", "constant", retLabel (1 + 1)]) :=
  ⟨(return_labels_unique cProg).1, (return_labels_unique cProg).2.1,
   (return_labels_unique cProg).2.2.1,
   (return_labels_unique cProg).2.2.2 1 "Foo" "2" [] rfl⟩

/-- C4 counterexample.  The claim predicts label indices 0, 0, 1, 0, 0
for the interleaving `eq`, `gt`, `eq`, `lt`, `eq`; but the last `eq` is
the third occurrence of `eq`, so per-operator counting gives it
index 2, not 0: the code yields 0, 0, 1, 0, 2. -/
theorem cmp_interleaving_indices :
    cmpIndices cmp0 ["eq", "gt", "eq", "lt", "eq"] = some [0, 0, 1, 0, 2] ∧
    cmpIndices cmp0 ["eq", "gt", "eq", "lt", "eq"] ≠ some [0, 0, 1, 0, 0] := by
  decide

/-- C4 (amended).  The three comparison counters are fully independent
and each increments exactly once per occurrence of its own operator
before label emission; the n-th occurrence of a given operator receives
label index n-1 (the count of its earlier occurrences), so repeated
uses of the same operator never collide — and the correct indices for
the interleaving `eq`, `gt`, `eq`, `lt`, `eq` are 0, 0, 1, 0, 2 (the
final `eq` is the third `eq`).  The dispatcher renders exactly the
pre-increment counter value into the label template. -/
theorem cmp_counters_per_operator :
    cmpIndices cmp0 ["eq", "gt", "eq", "lt", "eq"] = some [0, 0, 1, 0, 2] ∧
    (∀ ops, (∀ o ∈ ops, o = "lt" ∨ o = "eq" ∨ o = "gt") →
      ∃ l, cmpIndices cmp0 ops = some l ∧ l.length = ops.length ∧
        (∀ i o, ops.get? i = some o →
          l.get? i = some ((ops.take i).count o)) ∧
        (∀ i j o, i < j → ops.get? i = some o → ops.get? j = some o →
          l.get? i ≠ l.get? j)) ∧
    (∀ fuel st cmd cn idx pat, (cmd = "lt" ∨ cmd = "eq" ∨ cmd = "gt") →
      lookupPat st "_lt_eq_gt" = .ok pat →
      translateFuel (fuel + 1) st [cmd] cn idx =
        (formatPat pat (some cmd.toUpper) (jumpSymbol cmd)
            (some (pyNatStr (cmpGet st.cnt cmd)))) >>= fun code =>
          pure { st with cnt := cmpBump st.cnt cmd,
                         asm := (st.asm ++ commentOf [cmd]) ++ code ++ "\n" }) := by
  refine ⟨by decide, ?_, fun fuel st cmd cn idx pat hv hp =>
    cmp_dispatch fuel st cmd cn idx pat hv hp⟩
  intro ops hops
  obtain ⟨l, hl, hlen, hspec⟩ := cmpIndices_spec ops cmp0 hops
  refine ⟨l, hl, hlen, ?_, ?_⟩
  · intro i o hg
    have := hspec i o hg
    have hz : cmpGet cmp0 o = 0 := by
      rw [cmpGet]
      split
      · rfl
      · split
        · rfl
        · split
          · rfl
          · rfl
    rw [this, hz, Nat.zero_add]
  · intro i j o hij hi hj
    exact cmpIndices_no_collision ops l hops hl i j o hij hi hj

/-- Witness for C4 at the concrete interleaving. -/
theorem cmp_counters_per_operator_witness :
    cmpIndices cmp0 ["eq", "gt", "eq", "lt", "eq"] = some [0, 0, 1, 0, 2] ∧
    (∃ l, cmpIndices cmp0 ["eq", "gt", "eq", "lt", "eq"] = some l ∧
      l.length = (["eq", "gt", "eq", "lt", "eq"] : List String).length ∧
      (∀ i o, (["eq", "gt", "eq", "lt", "eq"] : List String).get? i = some o →
        l.get? i = some (((["eq", "gt", "eq", "lt", "eq"] : List String).take i).count o)) ∧
      (∀ i j o, i < j →
        (["eq", "gt", "eq", "lt", "eq"] : List String).get? i = some o →
        (["eq", "gt", "eq", "lt", "eq"] : List String).get? j = some o →
        l.get? i ≠ l.get? j)) :=
  ⟨cmp_counters_per_operator.1,
   cmp_counters_per_operator.2.1 ["eq", "gt", "eq", "lt", "eq"]
     (by intro o ho; fin_cases ho <;> simp)⟩

/-- C5 counterexample.  The claim says a source-level `pop local -1`
raises `InvalidSegmentOffset`.  No such error exists anywhere in the
translator: the instruction translates successfully, with the offset
accepted and split into magnitude and minus sign. -/
theorem pop_local_negative_accepted :
    (translateFuel 2 cState ["pop", "local", "-1"] "Main" 7).isOk = true ∧
    popPushExpr "Main" "local" "-1" = some ("1", some "1", some "-") := by
  decide

/-- C5 (amended).  Negative offsets on the indirect segments are never
rejected: `pop local -1` translates identically whether it comes from
source-level input (arbitrary class name and instruction index) or from
the internal call/return synthesis (class name empty, index 0) — the
dispatcher's output does not depend on that context at all, and equals
the `loc` template filled with base register `1`, magnitude `1` and
sign `-`. -/
theorem pop_local_negative_uniform (fuel : Nat) (st : TransState)
    (cn cn' : String) (idx idx' : Nat) (pat : Pattern)
    (hp : lookupPat st "_pop loc" = .ok pat) :
    popPushExpr cn "local" "-1" = some ("1", some "1", some "-") ∧
    translateFuel (fuel + 1) st ["pop", "local", "-1"] cn idx =
      translateFuel (fuel + 1) st ["pop", "local", "-1"] cn' idx' ∧
    translateFuel (fuel + 1) st ["pop", "local", "-1"] cn idx =
      (formatPat pat (some "1") (some "1") (some "-")) >>= fun code =>
        pure { st with asm := (st.asm ++ commentOf ["pop", "local", "-1"]) ++ code ++ "\n" } := by
  refine ⟨popPushExpr_local_m1 cn, ?_, pop_local_m1_dispatch fuel st cn idx pat hp⟩
  rw [pop_local_m1_dispatch fuel st cn idx pat hp,
    pop_local_m1_dispatch fuel st cn' idx' pat hp]

/-- Witness for C5 with the concrete template table. -/
theorem pop_local_negative_uniform_witness :
    popPushExpr "Main" "local" "-1" = some ("1", some "1", some "-") ∧
    translateFuel 2 cState ["pop", "local", "-1"] "Main" 7 =
      translateFuel 2 cState ["pop", "local", "-1"] "" 0 ∧
    translateFuel 2 cState ["pop", "local", "-1"] "Main" 7 =
      (formatPat [.lit "popL<", .var1, .lit ",", .var2, .lit ",", .var3, .lit ">"]
          (some "1") (some "1") (some "-")) >>= fun code =>
        pure { cState with asm :=
          (cState.asm ++ commentOf ["pop", "local", "-1"]) ++ code ++ "\n" } :=
  pop_local_negative_uniform 1 cState "Main" "" 7 0
    [.lit "popL<", .var1, .lit ",", .var2, .lit ",", .var3, .lit ">"] (by decide)

/-- C6 counterexample.  The scratch cells of the `return` expansion are
addresses 15 (return address, reached as `pop pointer 12`) and 14
(saved stack pointer, `pop pointer 11`); a source-level `pop pointer
12` or `push temp 10` resolves to the same address 15 and is accepted —
no range check exists. -/
theorem scratch_reachable_from_source :
    segAddr cMemCall "pointer" "12" = some 15 ∧
    segAddr cMemCall "temp" "10" = some 15 ∧
    ["pop", "pointer", "12"] ∈ returnCmds ∧
    (translateFuel 2 cState ["pop", "pointer", "12"] "" 0).isOk = true ∧
    (translateFuel 2 cState ["push", "temp", "10"] "" 0).isOk = true := by
  decide

/-- C6 (amended).  The scratch locations are fixed (cells
`ret_addr = 15` and `sp_addr = 14`), but they are reachable from
source level: `pointer` offsets 12 and 11 and `temp` offsets 10 and 9
resolve to the very same addresses, and the pop/push helper accepts
them with no range check, producing for `pop pointer 12` exactly the
substitution the `return` expansion itself uses. -/
theorem scratch_addresses_fixed_but_reachable (m : Mem) (cn : String) :
    ["pop", "pointer", "12"] ∈ returnCmds ∧
    ["pop", "pointer", "11"] ∈ returnCmds ∧
    segAddr m "pointer" "12" = some 15 ∧
    segAddr m "pointer" "11" = some 14 ∧
    segAddr m "temp" "10" = some 15 ∧
    segAddr m "temp" "9" = some 14 ∧
    popPushExpr cn "pointer" "12" = some ("12", some "+", none) ∧
    (ret_addr : Int) = 15 ∧ (sp_addr : Int) = 14 := by
  exact ⟨by decide, by decide, rfl, rfl, rfl, rfl, rfl, rfl, rfl⟩

/-- Witness for C6 at a concrete memory and class name. -/
theorem scratch_addresses_fixed_but_reachable_witness :
    ["pop", "pointer", "12"] ∈ returnCmds ∧
    ["pop", "pointer", "11"] ∈ returnCmds ∧
    segAddr cMemRet "pointer" "12" = some 15 ∧
    segAddr cMemRet "pointer" "11" = some 14 ∧
    segAddr cMemRet "temp" "10" = some 15 ∧
    segAddr cMemRet "temp" "9" = some 14 ∧
    popPushExpr "Main" "pointer" "12" = some ("12", some "+", none) ∧
    (ret_addr : Int) = 15 ∧ (sp_addr : Int) = 14 :=
  scratch_addresses_fixed_but_reachable cMemRet "Main"

/-- C7 counterexample.  Loading performs no validation: an empty
pattern directory loads successfully, leaving every opcode without a
template (missed opcodes only fail later, at translation time, with a
lookup `KeyError`); and two files mapping the same command silently
collapse onto one entry. -/
theorem loader_accepts_empty_table :
    createMappings [] = .ok ([], []) ∧
    createMappings [("_pop loc.txt", []), ("_pop temp.txt", [])] =
      .ok ([("_pop loc", ""), ("_pop temp", "")], [("pop", "_pop_push")]) := by
  decide

/-- C7 (amended).  `create_mappings` performs no coverage or collision
validation at load time (an empty directory yields empty tables with no
error); what does hold is the second half of the claim: the pattern
table is read-only after load — no translation step ever changes it. -/
theorem loader_no_validation_table_read_only :
    createMappings [] = .ok ([], []) ∧
    (∀ fuel st line cn idx st', translateFuel fuel st line cn idx = .ok st' →
      st'.patterns = st.patterns) :=
  ⟨by decide,
   fun fuel st line cn idx st' h => (translate_extends fuel st line cn idx st' h).1⟩

/-- Witness for C7: a concrete successful translation step leaves the
concrete pattern table unchanged. -/
theorem loader_no_validation_witness :
    (⟨cPatterns, cmp0, "// add\nbin<+>\n"⟩ : TransState).patterns =
      cState.patterns :=
  loader_no_validation_table_read_only.2 2 cState ["add"] "" 0
    ⟨cPatterns, cmp0, "// add\nbin<+>\n"⟩ (by decide)

set_option maxRecDepth 4000 in
/-- C8 counterexample.  For `return`, the emitted block is not just the
comment followed by the concatenation of the synthesized
sub-instructions' blocks: after the sub-instruction fold the handler
appends the formatted `_return` template (the final jump), so the full
translation differs from the bare fold over the sub-instructions. -/
theorem return_block_has_trailing_jump :
    translateFuel 2 cState ["return"] "" 0 ≠
      returnCmds.foldlM (fun s l => translateFuel 1 s l "" 0)
        { cState with asm := cState.asm ++ commentOf ["return"] } ∧
    (translateFuel 2 cState ["return"] "" 0).isOk = true ∧
    (returnCmds.foldlM (fun s l => translateFuel 1 s l "" 0)
        { cState with asm := cState.asm ++ commentOf ["return"] }).isOk = true := by
  decide

/-- C8 (amended).  The output only ever grows by appending: every
successful translation step extends the assembly with one contiguous
block.  For `call` (and `function`) the block is the comment line
followed by the concatenation of the synthesized sub-instructions'
blocks; for `return` the block additionally ends with the formatted
`_return` template (the indirect jump), emitted after the
sub-instructions' blocks. -/
theorem output_append_only :
    (∀ fuel st line cn idx st', translateFuel fuel st line cn idx = .ok st' →
      ∃ b, st'.asm = st.asm ++ b) ∧
    (∀ fuel st f na cn idx pat, lookupPat st "_call" = .ok pat →
      translateFuel (fuel + 1) st ["call", f, na] cn idx =
        (callCmds f na idx).foldlM (fun s l => translateFuel fuel s l "" 0)
          { st with asm := st.asm ++ commentOf ["call", f, na] }) ∧
    (∀ fuel st cn idx pat, lookupPat st "_return" = .ok pat →
      translateFuel (fuel + 1) st ["return"] cn idx =
        (returnCmds.foldlM (fun s l => translateFuel fuel s l "" 0)
            { st with asm := st.asm ++ commentOf ["return"] }) >>= fun st2 =>
          (formatPat pat (some (pyNatStr ret_addr)) none none) >>= fun code =>
            pure { st2 with asm := st2.asm ++ code ++ "\n" }) :=
  ⟨fun fuel st line cn idx st' h => (translate_extends fuel st line cn idx st' h).2,
   fun fuel st f na cn idx pat hp => call_dispatch fuel st f na cn idx pat hp,
   fun fuel st cn idx pat hp => return_dispatch fuel st cn idx pat hp⟩

/-- Witness for C8: a concrete successful translation step appends a
block to the (empty) previous output. -/
theorem output_append_only_witness :
    ∃ b, (⟨cPatterns, cmp0, "// add\nbin<+>\n"⟩ : TransState).asm =
      cState.asm ++ b :=
  output_append_only.1 2 cState ["add"] "" 0
    ⟨cPatterns, cmp0, "// add\nbin<+>\n"⟩ (by decide)

/-- C9.  Every sub-instruction synthesized by the `function`, `call`
and `return` expansions has an opcode in
`label, push, pop, goto, add, sub` — never `function`, `call` or
`return` — so the mutual recursion between the dispatcher and the
expansion handlers nests at most once: any fuel beyond 2 gives the same
result, for every instruction and state. -/
theorem expansion_only_base_opcodes :
    (∀ f n, (functionCmds f n).all isBaseCmd = true) ∧
    (∀ f na i, (callCmds f na i).all isBaseCmd = true) ∧
    returnCmds.all isBaseCmd = true ∧
    (∀ f st line cn idx, translateFuel (f + 2) st line cn idx =
      translateFuel 2 st line cn idx) :=
  ⟨functionCmds_base, callCmds_base, returnCmds_base, translateFuel_stable⟩

/-- C10.  A `push constant t` whose offset token does not parse as an
integer (such as the `RETURN_<n>` token synthesized by `call`) does not
fail: the `int()` failure is swallowed, the token counts as
non-negative, and it is substituted verbatim as `var_1` of the
`constant` template. -/
theorem push_constant_token_verbatim (t cn : String) (h : pyInt t = none) :
    popPushExpr cn "constant" t = some (t, none, none) ∧
    (∀ fuel st idx pat, lookupPat st "_push constant" = .ok pat →
      translateFuel (fuel + 1) st ["push", "constant", t] cn idx =
        (formatPat pat (some t) (some "None") (some "None")) >>= fun code =>
          pure { st with asm := (st.asm ++ commentOf ["push", "constant", t]) ++ code ++ "\n" }) ∧
    (∀ k, pyInt (retLabel k) = none) :=
  ⟨popPushExpr_const_nonint cn t h,
   fun fuel st idx pat hp => push_const_dispatch fuel st t cn idx pat h hp,
   pyInt_retLabel⟩

/-- Witness for C10 at the concrete synthesized token `RETURN_1`. -/
theorem push_constant_token_verbatim_witness :
    popPushExpr "Main" "constant" "RETURN_1" = some ("RETURN_1", none, none) ∧
    (∀ fuel st idx pat, lookupPat st "_push constant" = .ok pat →
      translateFuel (fuel + 1) st ["push", "constant", "RETURN_1"] "Main" idx =
        (formatPat pat (some "RETURN_1") (some "None") (some "None")) >>= fun code =>
          pure { st with asm := (st.asm ++ commentOf ["push", "constant", "RETURN_1"]) ++ code ++ "\n" }) ∧
    (∀ k, pyInt (retLabel k) = none) :=
  push_constant_token_verbatim "RETURN_1" "Main" (by decide)
